import Mathlib

/-!
Verification development for the arrow-grid simulator (`src/game.ts`).

The grid is a sparse map from chunk coordinates to 16×16 blocks of cells
("arrows").  Each arrow has a shape (`arrowType`), a rotation, a mirror flag
(`flipped`), a logic function (`medalType`) and cellular-automaton state.
The file embeds, as executable Lean definitions translated from the source:

* the offset transform and chunk re-basing used by `getArrowRelative` and
  `addTargetNode`;
* the forward/reverse connectivity queries `getTargetArrows` /
  `getSourceArrows`;
* the CA tick `updateCA` and the compressed node tick `updateNodes`;
* the graph compiler `createNode` / `simplifyNode`;
* the node-restructuring call paths of `updatePlayerInput`.

Classes imported by `game.ts` whose sources are not in the repository
(`Chunk`, `Arrow`, `LogicNode`, the circular signal buffer, `sendSignal`,
`NodeRestructuring`) are modelled from the specification; each such
definition carries a doc comment starting with `Modelled from the spec:`.
-/

/-- `CHUNK_SIZE` from `src/logic/chunk.ts` (the spec fixes N = 16). -/
def CHUNK_SIZE : Int := 16

/-- The rotation/mirror transform applied to a relative offset by
`getArrowRelative` (game.ts lines 313–327): if `flipped`, the lateral
component `dx` is negated, then the pair is rotated by `rotation × 90°`. -/
def transformOffset (flipped : Bool) (rotation : Fin 4) (dx dy : Int) : Int × Int :=
  let dx := if flipped then -dx else dx
  if rotation.val = 0 then (dx, dy)
  else if rotation.val = 1 then (dy, -dx)
  else if rotation.val = 2 then (-dx, -dy)
  else (-dy, dx)

/-- The rotation/mirror transform applied to a relative offset by
`addTargetNode` (game.ts lines 150–164); textually the same branch ladder as
in `getArrowRelative`. -/
def addTargetTransform (flipped : Bool) (rotation : Fin 4) (dx dy : Int) : Int × Int :=
  let dx := if flipped then -dx else dx
  if rotation.val = 0 then (dx, dy)
  else if rotation.val = 1 then (dy, -dx)
  else if rotation.val = 2 then (-dx, -dy)
  else (-dy, dx)

/-- Inverse of `transformOffset`: undo the rotation, then undo the mirror. -/
def invTransformOffset (flipped : Bool) (rotation : Fin 4) (a b : Int) : Int × Int :=
  let u : Int × Int :=
    if rotation.val = 0 then (a, b)
    else if rotation.val = 1 then (-b, a)
    else if rotation.val = 2 then (-a, -b)
    else (b, -a)
  (if flipped then -u.1 else u.1, u.2)

/-- One quarter-turn on an offset pair: the `rotation = 1` case of the
transform. -/
def rotStep (p : Int × Int) : Int × Int := (p.2, -p.1)

/-- Per-tick CA snapshot of an arrow (`active` plus `signalCount`). -/
structure ArrowState where
  active : Bool
  signalCount : Nat
deriving DecidableEq, Repr

instance : Inhabited ArrowState := ⟨⟨false, 0⟩⟩

/-- Modelled from the spec: one grid position's mutable record — shape id
(`arrowType`, 0 = empty), rotation in 90° steps, mirror flag, logic-function
id (`medalType`), CA `active` flag, per-tick `signalCount`, and the
previous-tick snapshot `lastState`. -/
structure Arrow where
  arrowType : Nat
  medalType : Nat
  rotation : Fin 4
  flipped : Bool
  active : Bool
  signalCount : Nat
  lastState : ArrowState
deriving DecidableEq, Repr

instance : Inhabited Arrow := ⟨⟨0, 0, 0, false, false, 0, default⟩⟩

/-- Modelled from the spec: `Arrow.copyState` copies the arrow's current CA
state (`active` and `signalCount`) into a snapshot record. -/
def Arrow.copyState (a : Arrow) : ArrowState := ⟨a.active, a.signalCount⟩

/-- Modelled from the spec: a chunk is a fixed 16×16 block of cells. -/
structure Chunk where
  cells : Fin 16 → Fin 16 → Arrow

/-- Modelled from the spec: `Chunk.getArrow` reads the cell at a local
coordinate; all callers stay inside `[0,16)²`. -/
def Chunk.getArrow (ch : Chunk) (x y : Int) : Arrow :=
  if hx : 0 ≤ x ∧ x < 16 then
    if hy : 0 ≤ y ∧ y < 16 then
      ch.cells ⟨x.toNat, by omega⟩ ⟨y.toNat, by omega⟩
    else default
  else default

/-- Modelled from the spec: the sparse grid, a mapping from chunk coordinate
to chunk.  Neighbor links (`adjacentChunks`) are the chunks at the eight
adjacent coordinates, looked up in this mapping. -/
structure World where
  chunks : List ((Int × Int) × Chunk)

/-- Chunk lookup by coordinate. -/
def World.chunkAt (w : World) (p : Int × Int) : Option Chunk :=
  (w.chunks.find? (fun q => decide (q.1 = p))).map (fun q => q.2)

/-- The arrow stored at chunk coordinate `cp`, local coordinate `l`
(the empty arrow if the chunk is absent). -/
def World.arrowAt (w : World) (cp : Int × Int) (l : Int × Int) : Arrow :=
  match w.chunkAt cp with
  | none => default
  | some ch => ch.getArrow l.1 l.2

/-- The chunk re-basing ladder shared by `getArrowRelative`
(game.ts lines 328–361) and `addTargetNode` (lines 165–198): a transformed
local coordinate outside `[0,16)²` is moved into the adjacent chunk selected
by the overflowing axis or axes, adding or subtracting 16 per axis.
The neighbor links themselves are modelled from the spec as coordinate
adjacency in the chunk map. -/
def rebaseLocal (w : World) (cp : Int × Int) (x y : Int) :
    Option ((Int × Int) × Chunk × (Int × Int)) :=
  if 16 ≤ x then
    if 16 ≤ y then
      (w.chunkAt (cp.1 + 1, cp.2 + 1)).map (fun ch => ((cp.1 + 1, cp.2 + 1), ch, (x - 16, y - 16)))
    else if y < 0 then
      (w.chunkAt (cp.1 + 1, cp.2 - 1)).map (fun ch => ((cp.1 + 1, cp.2 - 1), ch, (x - 16, y + 16)))
    else
      (w.chunkAt (cp.1 + 1, cp.2)).map (fun ch => ((cp.1 + 1, cp.2), ch, (x - 16, y)))
  else if x < 0 then
    if y < 0 then
      (w.chunkAt (cp.1 - 1, cp.2 - 1)).map (fun ch => ((cp.1 - 1, cp.2 - 1), ch, (x + 16, y + 16)))
    else if 16 ≤ y then
      (w.chunkAt (cp.1 - 1, cp.2 + 1)).map (fun ch => ((cp.1 - 1, cp.2 + 1), ch, (x + 16, y - 16)))
    else
      (w.chunkAt (cp.1 - 1, cp.2)).map (fun ch => ((cp.1 - 1, cp.2), ch, (x + 16, y)))
  else if y < 0 then
    (w.chunkAt (cp.1, cp.2 - 1)).map (fun ch => ((cp.1, cp.2 - 1), ch, (x, y + 16)))
  else if 16 ≤ y then
    (w.chunkAt (cp.1, cp.2 + 1)).map (fun ch => ((cp.1, cp.2 + 1), ch, (x, y - 16)))
  else
    (w.chunkAt cp).map (fun ch => (cp, ch, (x, y)))

/-- `getArrowRelative` (game.ts lines 312–367): transform the offset by the
arrow's mirror/rotation, re-base across the chunk border if needed, and
return the target chunk, arrow and local coordinate — `none` when the
required chunk is missing or the resolved cell is empty (`arrowType = 0`). -/
def getArrowRelative (w : World) (cp : Int × Int) (a : Arrow) (x y dx dy : Int) :
    Option ((Int × Int) × Arrow × (Int × Int)) :=
  let t := transformOffset a.flipped a.rotation dx dy
  match rebaseLocal w cp (x + t.1) (y + t.2) with
  | none => none
  | some (cp2, ch, l2) =>
    let ta := ch.getArrow l2.1 l2.2
    if 0 < ta.arrowType then some (cp2, ta, l2) else none

/-- Per-shape relative target offsets used by `getTargetArrows`
(game.ts lines 369–437), one list per `arrowType` branch, in source order. -/
def shapeOffsets (t : Nat) : List (Int × Int) :=
  match t with
  | 1 => [(0, -1)]
  | 2 => [(-1, 0), (1, 0)]
  | 3 => [(0, -1), (1, 0)]
  | 4 => [(-1, 0), (0, -1), (1, 0)]
  | 5 => [(-1, 0), (1, 0), (0, -1), (0, 1)]
  | 6 => [(0, -2)]
  | 7 => [(1, -1)]
  | 8 => [(0, -1), (1, -1)]
  | 9 => [(0, -2), (1, 0)]
  | 10 => [(-2, 0), (1, 0)]
  | 11 => [(0, -1), (0, -2)]
  | 12 => [(0, 0), (0, -1)]
  | 13 => [(-1, 0), (0, 0), (1, 0)]
  | _ => []

/-- Per-shape relative offsets used by the send pass of `updateCA`
(game.ts lines 503–543); the source repeats the dispatch there verbatim. -/
def caSendOffsets (t : Nat) : List (Int × Int) :=
  match t with
  | 1 => [(0, -1)]
  | 2 => [(-1, 0), (1, 0)]
  | 3 => [(0, -1), (1, 0)]
  | 4 => [(-1, 0), (0, -1), (1, 0)]
  | 5 => [(-1, 0), (1, 0), (0, -1), (0, 1)]
  | 6 => [(0, -2)]
  | 7 => [(1, -1)]
  | 8 => [(0, -1), (1, -1)]
  | 9 => [(0, -2), (1, 0)]
  | 10 => [(-2, 0), (1, 0)]
  | 11 => [(0, -1), (0, -2)]
  | 12 => [(0, 0), (0, -1)]
  | 13 => [(-1, 0), (0, 0), (1, 0)]
  | _ => []

/-- Per-shape relative offsets used by `createNode` when wiring the raw node
graph (game.ts lines 218–258); again a verbatim copy of the dispatch. -/
def createOffsets (t : Nat) : List (Int × Int) :=
  match t with
  | 1 => [(0, -1)]
  | 2 => [(-1, 0), (1, 0)]
  | 3 => [(0, -1), (1, 0)]
  | 4 => [(-1, 0), (0, -1), (1, 0)]
  | 5 => [(-1, 0), (1, 0), (0, -1), (0, 1)]
  | 6 => [(0, -2)]
  | 7 => [(1, -1)]
  | 8 => [(0, -1), (1, -1)]
  | 9 => [(0, -2), (1, 0)]
  | 10 => [(-2, 0), (1, 0)]
  | 11 => [(0, -1), (0, -2)]
  | 12 => [(0, 0), (0, -1)]
  | 13 => [(-1, 0), (0, 0), (1, 0)]
  | _ => []

/-- Every relative offset occurring in any shape table. -/
def allShapeOffsets : List (Int × Int) :=
  [(0, 0), (0, -1), (-1, 0), (1, 0), (0, 1), (0, -2), (1, -1), (-2, 0)]

/-- The 12 candidate offsets probed by `getSourceArrows`
(game.ts lines 444–455), in source order; the queried cell itself is a 13th
candidate added separately. -/
def candidateOffsets : List (Int × Int) :=
  [(-1, 0), (1, 0), (0, 1), (0, -1), (-2, 0), (2, 0), (0, 2), (0, -2),
   (-1, 1), (1, 1), (-1, -1), (1, -1)]

/-- `getTargetArrows` (game.ts lines 369–439): resolve each of the shape's
offsets with `getArrowRelative` and keep the hits (the source pushes
possibly-undefined entries and filters them at the end). -/
def getTargetArrows (w : World) (cp : Int × Int) (a : Arrow) (x y : Int) :
    List ((Int × Int) × Arrow × (Int × Int)) :=
  (shapeOffsets a.arrowType).filterMap (fun d => getArrowRelative w cp a x y d.1 d.2)

/-- Positions (chunk coordinate, local coordinate) of a cell's forward
targets. -/
def targetPositions (w : World) (cp : Int × Int) (a : Arrow) (x y : Int) :
    List ((Int × Int) × (Int × Int)) :=
  (getTargetArrows w cp a x y).map (fun t => (t.1, t.2.2))

/-- `getSourceArrows` (game.ts lines 441–463): the cell itself plus the 12
candidate offsets resolved through `getArrowRelative`, filtered to those
candidates whose forward targets include the queried cell.  The source
filters by arrow object identity; here cells are identified by their grid
position. -/
def getSourceArrows (w : World) (cp : Int × Int) (a : Arrow) (x y : Int) :
    List ((Int × Int) × Arrow × (Int × Int)) :=
  ((cp, a, (x, y)) :: candidateOffsets.filterMap (fun d => getArrowRelative w cp a x y d.1 d.2)).filter
    (fun t => decide ((cp, (x, y)) ∈ targetPositions w t.1 t.2.1 t.2.2.1 t.2.2.2))

/-- Positions of the discovered source cells. -/
def sourcePositions (w : World) (cp : Int × Int) (a : Arrow) (x y : Int) :
    List ((Int × Int) × (Int × Int)) :=
  (getSourceArrows w cp a x y).map (fun t => (t.1, t.2.2))

/-- The activation table applied per cell by the second pass of `updateCA`
(game.ts lines 551–571): the chain of `medalType` branches; any other
`medalType` leaves `active` unchanged. -/
def caActivation (m n : Nat) (prev : Bool) : Bool :=
  if m = 0 then decide (0 < n)
  else if m = 1 then true
  else if m = 2 then decide (n = 0)
  else if m = 3 then decide (2 ≤ n)
  else if m = 4 then decide (n % 2 = 1)
  else if m = 5 then (if 0 < n then !prev else prev)
  else if m = 6 then (if 0 < n then decide (n % 2 = 0) else prev)
  else prev

/-- The per-cell part of `updateCA`'s second pass (game.ts lines 551–571):
update `active` by the activation table, then snapshot `lastState` via
`copyState`, then reset `signalCount` — in that source order. -/
def caPass2Arrow (a : Arrow) : Arrow :=
  if 0 < a.arrowType then
    let a1 := { a with active := caActivation a.medalType a.signalCount a.active }
    let a2 := { a1 with lastState := a1.copyState }
    { a2 with signalCount := 0 }
  else a

/-- Modelled from the spec: `sendSignal` resolves the forward target of an
offset exactly as the resolver does and increments that target's
`signalCount`; this definition yields the resolved target position. -/
def sendTargetPos (w : World) (cp : Int × Int) (a : Arrow) (x y : Int) (d : Int × Int) :
    Option ((Int × Int) × (Int × Int)) :=
  (getArrowRelative w cp a x y d.1 d.2).map (fun t => (t.1, t.2.2))

/-- Enumeration of every cell of every stored chunk, in the iteration order
of `updateCA` (chunk list order, then `y`, then `x`). -/
def worldCells (w : World) : List ((Int × Int) × Chunk × Fin 16 × Fin 16) :=
  (w.chunks.map (fun c =>
    ((List.finRange 16).map (fun y =>
      (List.finRange 16).map (fun x => (c.1, c.2, x, y)))).flatten)).flatten

/-- Number of signals one source cell sends to position `p` during the first
pass of `updateCA` (game.ts lines 498–546): active non-empty cells send one
signal along each of their shape's offsets. -/
def cellContribution (w : World) (p : (Int × Int) × (Int × Int))
    (c : (Int × Int) × Chunk × Fin 16 × Fin 16) : Nat :=
  let a := c.2.1.cells c.2.2.1 c.2.2.2
  if 0 < a.arrowType ∧ a.active then
    (caSendOffsets a.arrowType).countP
      (fun d => decide (sendTargetPos w c.1 a c.2.2.1.val c.2.2.2.val d = some p))
  else 0

/-- Total number of signals arriving at position `p` during the first pass
of `updateCA`. -/
def inboundCount (w : World) (p : (Int × Int) × (Int × Int)) : Nat :=
  ((worldCells w).map (cellContribution w p)).sum

/-- The first pass of `updateCA` (game.ts lines 498–546): every cell's
`signalCount` grows by the number of signals sent to it; `active` flags are
only read during this pass, so the scattered increments of the source sum to
this per-cell total. -/
def caPass1 (w : World) : World :=
  ⟨w.chunks.map (fun c =>
    (c.1, ⟨fun x y =>
      let a := c.2.cells x y
      { a with signalCount := a.signalCount + inboundCount w (c.1, (x.val, y.val)) }⟩))⟩

/-- `updateCA` (game.ts lines 497–574): the send pass followed by the
activation pass over every cell of every chunk. -/
def updateCA (w : World) : World :=
  ⟨(caPass1 w).chunks.map (fun c => (c.1, ⟨fun x y => caPass2Arrow (c.2.cells x y)⟩))⟩

/-- Modelled from the spec: the compressed delay-line node — logic function
`type`, run length `size`, the fixed-capacity signal history (index 0 the
newest entry, index `size - 1` the value about to be delivered), per-tick
scratch `signalCount` / `lastSignal` / `lastSignalCount`, and target indices
into the flat node list. -/
structure LogicNode where
  type : Nat
  size : Nat
  signals : List Bool
  lastSignal : Bool
  signalCount : Nat
  lastSignalCount : Nat
  targets : List Nat
deriving DecidableEq, Repr

instance : Inhabited LogicNode := ⟨⟨0, 0, [], false, 0, 0, []⟩⟩

/-- Modelled from the spec: inserting into the fixed-capacity signal history
pushes the new value as the newest entry and drops the oldest. -/
def insertSignal (b : Bool) (l : List Bool) : List Bool := b :: l.dropLast

/-- The activation switch of `updateNodes` (game.ts lines 587–612):
`active` starts as `node.lastSignal` and the `switch` on `node.type`
overwrites it; absent cases leave it at `lastSignal`. -/
def nodeActivation (t n : Nat) (last : Bool) : Bool :=
  match t with
  | 0 => decide (0 < n)
  | 1 => true
  | 2 => decide (n = 0)
  | 3 => decide (2 ≤ n)
  | 4 => decide (n % 2 = 1)
  | 5 => if 0 < n then !last else last
  | 6 => if 0 < n then decide (n % 2 = 0) else last
  | _ => last

/-- Signals delivered to node index `i` during the first pass of
`updateNodes` (game.ts lines 577–585): every node whose oldest history entry
(`signals.at(-1)`) is true increments each of its targets once. -/
def deliveredTo (nodes : List LogicNode) (i : Nat) : Nat :=
  (nodes.map (fun nd => if nd.signals.getLastD false then nd.targets.count i else 0)).sum

/-- The first pass of `updateNodes`: record `lastSignal = signals.at(0)` and
accumulate the delivered signal counts (histories are only read during this
pass, so the scattered increments sum to a per-node total). -/
def nodesPass1 (nodes : List LogicNode) : List LogicNode :=
  nodes.mapIdx (fun i nd =>
    { nd with lastSignal := nd.signals.headI,
              signalCount := nd.signalCount + deliveredTo nodes i })

/-- The second pass of `updateNodes` (game.ts lines 586–616): compute
`active` from the switch, push it as the newest history entry, record
`lastSignalCount`, reset `signalCount`. -/
def nodesPass2 (nd : LogicNode) : LogicNode :=
  { nd with signals := insertSignal (nodeActivation nd.type nd.signalCount nd.lastSignal) nd.signals,
            lastSignalCount := nd.signalCount,
            signalCount := 0 }

/-- `updateNodes` (game.ts lines 576–617). -/
def updateNodes (nodes : List LogicNode) : List LogicNode :=
  (nodesPass1 nodes).map nodesPass2

/-- A compiled node graph as produced by the Graph Compiler: each node is a
run of `nodeSize i` cells — a head cell carrying the node's logic function
`nodeFn i` followed by pass-through (`medalType = 0`) cells, the only form
`simplifyNode` ever fuses — and `nodeTargets i` lists the nodes whose head
cells the run's last cell signals to (with multiplicity). -/
structure ChainGraph where
  numNodes : Nat
  nodeSize : Fin numNodes → Nat
  sizePos : ∀ i, 0 < nodeSize i
  nodeFn : Fin numNodes → Nat
  nodeTargets : Fin numNodes → List (Fin numNodes)

/-- Index of the oldest history entry / last cell of a node's run. -/
def ChainGraph.lastIdx (G : ChainGraph) (i : Fin G.numNodes) : Fin (G.nodeSize i) :=
  ⟨G.nodeSize i - 1, by have := G.sizePos i; omega⟩

/-- Index of the newest history entry / head cell of a node's run. -/
def ChainGraph.headIdx (G : ChainGraph) (i : Fin G.numNodes) : Fin (G.nodeSize i) :=
  ⟨0, G.sizePos i⟩

/-- Node-simulator state over a compiled graph: per node, the signal history
(indexed newest-first, as the rendering code reads it through
`node.signals.at(arrow.offset)`) and the pending `signalCount`. -/
structure NState (G : ChainGraph) where
  signals : (i : Fin G.numNodes) → Fin (G.nodeSize i) → Bool
  count : Fin G.numNodes → Nat

/-- CA state over the cells of a compiled graph: cell `(i, o)` is the cell
at offset `o` of node `i`'s run. -/
structure CState (G : ChainGraph) where
  act : (i : Fin G.numNodes) → Fin (G.nodeSize i) → Bool
  count : (i : Fin G.numNodes) → Fin (G.nodeSize i) → Nat

/-- Signals delivered to node `i` in the first pass of `updateNodes`: one
per occurrence of `i` in the targets of a node whose oldest history entry is
true. -/
def nodeInboundCG (G : ChainGraph) (S : NState G) (i : Fin G.numNodes) : Nat :=
  ∑ j, if S.signals j (G.lastIdx j) then (G.nodeTargets j).count i else 0

/-- One tick of `updateNodes` on the compiled graph: the head history entry
becomes the activation switch's output (with `lastSignal = signals.at(0)` as
`prev`), older entries shift down, counts reset. -/
def nodeTickCG (G : ChainGraph) (S : NState G) : NState G where
  signals := fun i o =>
    if h : o.val = 0 then
      nodeActivation (G.nodeFn i) (S.count i + nodeInboundCG G S i) (S.signals i (G.headIdx i))
    else S.signals i ⟨o.val - 1, by omega⟩
  count := fun _ => 0

/-- Logic function of cell `(i, o)`: the node's function at the head,
pass-through 0 elsewhere (the compiler only fuses `type = 0` targets). -/
def cellFnCG (G : ChainGraph) (i : Fin G.numNodes) (o : Fin (G.nodeSize i)) : Nat :=
  if o.val = 0 then G.nodeFn i else 0

/-- Signals arriving at cell `(i, o)` in the send pass of `updateCA`: a head
cell hears the last cells of the nodes targeting `i`; a cell at offset
`o > 0` hears its predecessor in the run. -/
def caInboundCG (G : ChainGraph) (A : CState G) (i : Fin G.numNodes)
    (o : Fin (G.nodeSize i)) : Nat :=
  if o.val = 0 then
    ∑ j, if A.act j (G.lastIdx j) then (G.nodeTargets j).count i else 0
  else
    (if A.act i ⟨o.val - 1, by omega⟩ then 1 else 0)

/-- One tick of `updateCA` on the cells of the compiled graph: the send pass
accumulates counts, the activation pass applies the table and resets. -/
def caTickCG (G : ChainGraph) (A : CState G) : CState G where
  act := fun i o => caActivation (cellFnCG G i o) (A.count i o + caInboundCG G A i o) (A.act i o)
  count := fun _ _ => 0

/-- `k` node-simulator ticks. -/
def nodeRunCG (G : ChainGraph) : Nat → NState G → NState G
  | 0, S => S
  | k + 1, S => nodeRunCG G k (nodeTickCG G S)

/-- `k` CA ticks. -/
def caRunCG (G : ChainGraph) : Nat → CState G → CState G
  | 0, S => S
  | k + 1, S => caRunCG G k (caTickCG G S)

/-- The two models start from the same cell states: the history entry at a
cell's offset (what the node model shows for that cell) agrees with the
cell's CA `active`, and no stale signal counts are pending. -/
def coherentCG (G : ChainGraph) (S : NState G) (A : CState G) : Prop :=
  (∀ i o, S.signals i o = A.act i o) ∧ (∀ i, S.count i = 0) ∧ (∀ i o, A.count i o = 0)

instance (G : ChainGraph) (S : NState G) (A : CState G) : Decidable (coherentCG G S A) := by
  unfold coherentCG; infer_instance

/-- First-match association lookup (the `WeakMap` / `originalNode` caches). -/
def lookupA {α β : Type} [DecidableEq α] (l : List (α × β)) (k : α) : Option β :=
  (l.find? (fun q => decide (q.1 = k))).map (fun q => q.2)

/-- Replace the element at one index of a list. -/
def modifyIdx {α : Type} (l : List α) (i : Nat) (f : α → α) : List α :=
  match l, i with
  | [], _ => []
  | a :: l, 0 => f a :: l
  | a :: l, i + 1 => a :: modifyIdx l i f

/-- A grid position: chunk coordinate plus local coordinate. -/
abbrev CellPos := (Int × Int) × (Int × Int)

/-- Arena entry for a `LogicNode` as the compiler sees it: the owned cells
with their offsets, the logic function, the run length, target and source
node indices, and the compiler's `ready` flag. -/
structure GNode where
  arrows : List (CellPos × Nat)
  ntype : Nat
  size : Nat
  targets : List Nat
  sources : List Nat
  ready : Bool
deriving DecidableEq, Repr

instance : Inhabited GNode := ⟨⟨[], 0, 0, [], [], false⟩⟩

/-- State of the `createNodes` pass: the `originalNode` cache (position to
node index, the per-arrow field of the source) and the node arena. -/
structure BuildState where
  memo : List (CellPos × Nat)
  nodes : List GNode
deriving Repr

mutual

/-- `createNode` (game.ts lines 208–260): skip empty cells, reuse the memoized
node (`arrow.originalNode`), otherwise allot a fresh one-cell node with the
cell's `medalType` and wire one target edge per shape offset. -/
def createNode (w : World) (fuel : Nat) (st : BuildState) (cp : Int × Int) (x y : Int) :
    BuildState × Option Nat :=
  match fuel with
  | 0 => (st, none)
  | fuel + 1 =>
    match w.chunkAt cp with
    | none => (st, none)
    | some ch =>
      let a := ch.getArrow x y
      if a.arrowType = 0 then (st, none)
      else
        match lookupA st.memo (cp, (x, y)) with
        | some id => (st, some id)
        | none =>
          let id := st.nodes.length
          let st1 : BuildState :=
            ⟨st.memo ++ [((cp, (x, y)), id)],
             st.nodes ++ [⟨[((cp, (x, y)), 0)], a.medalType, 1, [], [], false⟩]⟩
          (buildTargets w fuel st1 id cp a x y (createOffsets a.arrowType), some id)
termination_by (fuel, 0, 0)

/-- The `addTargetNode` calls of one `createNode` body, one per offset. -/
def buildTargets (w : World) (fuel : Nat) (st : BuildState) (id : Nat)
    (cp : Int × Int) (a : Arrow) (x y : Int) :
    List (Int × Int) → BuildState
  | [] => st
  | d :: ds => buildTargets w fuel (addTargetNode w fuel st id cp a x y d) id cp a x y ds
termination_by ds => (fuel, 1, ds.length)

/-- `addTargetNode` (game.ts lines 149–206): transform the offset by the
source arrow's mirror/rotation, re-base across the chunk border, bail out
silently on a missing chunk, recursively create/fetch the target's node and
link the edge in both directions. -/
def addTargetNode (w : World) (fuel : Nat) (st : BuildState) (id : Nat)
    (cp : Int × Int) (a : Arrow) (x y : Int) (d : Int × Int) : BuildState :=
  let t := addTargetTransform a.flipped a.rotation d.1 d.2
  match rebaseLocal w cp (x + t.1) (y + t.2) with
  | none => st
  | some (cp2, _, l2) =>
    match createNode w fuel st cp2 l2.1 l2.2 with
    | (st1, none) => st1
    | (st1, some tid) =>
      ⟨st1.memo,
       modifyIdx (modifyIdx st1.nodes id (fun nd => { nd with targets := nd.targets ++ [tid] }))
         tid (fun nd => { nd with sources := nd.sources ++ [id] })⟩
termination_by (fuel, 0, 1)

end

/-- The `createNodes` pass (game.ts lines 141–147): visit every cell of
every chunk in iteration order and create its node. -/
def buildAll (w : World) (fuel : Nat) : BuildState :=
  (worldCells w).foldl (fun st c => (createNode w fuel st c.1 c.2.2.1.val c.2.2.2.val).1) ⟨[], []⟩

/-- `createNodes` only ever extends its state: the memo cache keeps every
binding, the arena only grows, and a node's target list only gains
entries. -/
def BuildExt (s s2 : BuildState) : Prop :=
  (∀ k v, lookupA s.memo k = some v → lookupA s2.memo k = some v) ∧
  s.nodes.length ≤ s2.nodes.length ∧
  (∀ i t, i < s.nodes.length →
    t ∈ (s.nodes.getD i default).targets → t ∈ (s2.nodes.getD i default).targets)

/-- State of the simplification pass: the node arena (raw nodes first,
simplified copies appended), the `simplifiedNodes` cache, and the live node
set `this.nodes` kept as an insertion-ordered list. -/
structure SimpState where
  nodes : List GNode
  memo : List (Nat × Nat)
  live : List Nat
deriving Repr

/-- Modelled from the spec: `LogicNode.copy` duplicates the cell run, logic
function and size; the compiler pushes target links itself and reverse edges
are rebuilt afterwards, so the copy starts with no edges and `ready = false`. -/
def copyNode (nd : GNode) : GNode := ⟨nd.arrows, nd.ntype, nd.size, [], [], false⟩

/-- The entry bookkeeping of `simplifyNode` (game.ts lines 286–289): append
the copy to the arena, cache it under both the raw node and itself, and add
it to the live set. -/
def insertCopy (st : SimpState) (rid : Nat) : SimpState × Nat :=
  let sid := st.nodes.length
  (⟨st.nodes ++ [copyNode (st.nodes.getD rid default)],
    st.memo ++ [(rid, sid), (sid, sid)],
    st.live ++ [sid]⟩, sid)

mutual

/-- `simplifyNode` (game.ts lines 282–310): memoized contraction of one raw
node.  With exactly one target whose raw node has logic function 0 and a
single source and whose simplified form is already `ready`, the target is
fused: it leaves the live set, the current node's size grows by the fusion,
the target's cells are appended with offsets shifted by the current node's
size, and the target's targets are adopted.  Otherwise every target is
simplified recursively and linked as a separate downstream node. -/
def simplifyNode (fuel : Nat) (st : SimpState) (rid : Nat) : SimpState × Option Nat :=
  match fuel with
  | 0 => (st, none)
  | fuel + 1 =>
    match lookupA st.memo rid with
    | some e => (st, some e)
    | none =>
      let raw := st.nodes.getD rid default
      let p := insertCopy st rid
      let st1 := p.1
      let sid := p.2
      match raw.targets with
      | [t] =>
        match simplifyNode fuel st1 t with
        | (st2, none) => (st2, none)
        | (st2, some stgt) =>
          let tgtRaw := st2.nodes.getD t default
          let tgtSimp := st2.nodes.getD stgt default
          if tgtRaw.ntype = 0 ∧ tgtRaw.sources.length = 1 ∧ tgtSimp.ready then
            let st3 : SimpState :=
              ⟨modifyIdx st2.nodes sid (fun nd =>
                 { nd with size := raw.size + tgtSimp.size,
                           arrows := nd.arrows ++ tgtSimp.arrows.map (fun pr => (pr.1, pr.2 + raw.size)),
                           targets := nd.targets ++ tgtSimp.targets,
                           ready := true }),
               st2.memo, st2.live.erase stgt⟩
            (st3, some sid)
          else
            (⟨modifyIdx st2.nodes sid (fun nd =>
                { nd with targets := nd.targets ++ [stgt], ready := true }),
              st2.memo, st2.live⟩, some sid)
      | ts =>
        match simplifyMany fuel st1 sid ts with
        | (st2, false) => (st2, none)
        | (st2, true) =>
          (⟨modifyIdx st2.nodes sid (fun nd => { nd with ready := true }),
            st2.memo, st2.live⟩, some sid)
termination_by (fuel, 0, 0)

/-- The target loop of `simplifyNode`'s multi-target branch (game.ts lines
303–307): simplify each target and push it onto the copy's target list. -/
def simplifyMany (fuel : Nat) (st : SimpState) (sid : Nat) :
    List Nat → SimpState × Bool
  | [] => (st, true)
  | t :: ts =>
    match simplifyNode fuel st t with
    | (st1, none) => (st1, false)
    | (st1, some stgt) =>
      simplifyMany fuel
        ⟨modifyIdx st1.nodes sid (fun nd => { nd with targets := nd.targets ++ [stgt] }),
         st1.memo, st1.live⟩ sid ts
termination_by ts => (fuel, 1, ts.length)

end

/-- The `simplifyNodes` driver (game.ts lines 262–280): visit every cell in
chunk iteration order and simplify its `arrow.node` (the raw node recorded
by `createNodes`); the live set built this way is the compiled graph.  The
final re-wiring of `arrow.node` and rebuilding of `sources` (lines 273–278)
does not affect the live set or any node's targets. -/
def simplifyAll (w : World) (bst : BuildState) (fuel : Nat) : SimpState :=
  (worldCells w).foldl
    (fun st c =>
      match lookupA bst.memo (c.1, (c.2.2.1.val, c.2.2.2.val)) with
      | none => st
      | some rid => (simplifyNode fuel st rid).1)
    ⟨bst.nodes, [], []⟩

/-- `simplifyNode` leaves every pre-existing arena entry untouched (it only
appends copies and modifies the freshly appended ones). -/
def SimpPreserve (s s2 : SimpState) : Prop :=
  s.nodes.length ≤ s2.nodes.length ∧
  (∀ i, i < s.nodes.length → s2.nodes.getD i default = s.nodes.getD i default)

/-- Which neighbor a coordinate overflowing one axis selects: `-1` below the
chunk, `1` past it, `0` inside. -/
def overflowDir (t : Int) : Int := if t < 0 then -1 else if 16 ≤ t then 1 else 0

/-- A node as the restructuring engine sees it: the owned cell run (cells as
opaque ids, offset = list index) and the logic function. -/
structure RNode where
  arrows : List Nat
  ntype : Nat
deriving DecidableEq, Repr

/-- Modelled from the spec: `NodeRestructuring.splitNode` cuts a node into
two independent nodes at `offset` — the front keeps cells `[0, offset)` and
its head's logic function, the tail takes `[offset, size)` (its cells were
chain-transparent, function 0) — replacing the node in the live set; empty
pieces are not materialized.  Returns both pieces, as the source
destructures `[, node] = splitNode(...)`. -/
def splitNode (nodes : List RNode) (nd : RNode) (off : Nat) :
    List RNode × RNode × RNode :=
  let front : RNode := ⟨nd.arrows.take off, nd.ntype⟩
  let tail : RNode := ⟨nd.arrows.drop off, 0⟩
  ((nodes.erase nd ++ (if front.arrows.isEmpty then [] else [front])) ++
     (if tail.arrows.isEmpty then [] else [tail]),
   front, tail)

/-- Modelled from the spec: `NodeRestructuring.updateNode` applies a
logic-function change.  The call sites in game.ts (lines 651 and 678) pass
only the owning node, so the affected cell is the node's head cell; if it is
not the sole cell of its node, split isolates it first, then the function is
set on that isolated node. -/
def updateNodeR (nodes : List RNode) (nd : RNode) (fn : Nat) : List RNode :=
  if nd.arrows.length ≤ 1 then nodes.erase nd ++ [⟨nd.arrows, fn⟩]
  else nodes.erase nd ++ [⟨nd.arrows.take 1, fn⟩, ⟨nd.arrows.drop 1, 0⟩]

/-- The medal-selection edit path (game.ts lines 648–653): set the cell's
`medalType`, split its node at the cell's offset, and apply `updateNode`
with the new function to the tail node returned by the split. -/
def medalSelectPath (nodes : List RNode) (nd : RNode) (off fn : Nat) : List RNode :=
  let s := splitNode nodes nd off
  updateNodeR s.1 s.2.2 fn

/-- The medal-clearing edit path under the remove key (game.ts lines
676–679): when the hovered cell's `medalType` is nonzero it is set to 0 and
`updateNode(this.nodes, arrow.node, 0)` is invoked — with the whole owning
node and no cell offset. -/
def keyRClearPath (nodes : List RNode) (nd : RNode) : List RNode :=
  updateNodeR nodes nd 0

/-- A cell of shape 1 (logic function 2, a NOT gate) at local (0,0). -/
def exampleArrowC : Arrow := ⟨1, 2, 0, false, false, 0, default⟩

/-- A cell of shape 1, function 0, at local (0,1), pointing at (0,0). -/
def exampleArrowS : Arrow := ⟨1, 0, 0, false, false, 0, default⟩

/-- A single 16×16 chunk holding the two example cells. -/
def exampleChunk : Chunk :=
  ⟨fun x y =>
    if x = 0 ∧ y = 0 then exampleArrowC
    else if x = 0 ∧ y = 1 then exampleArrowS
    else default⟩

/-- A world with the single example chunk at chunk coordinate (0,0). -/
def exampleWorld : World := ⟨[((0, 0), exampleChunk)]⟩

/-- An active shape-12 cell (its shape table contains the offset (0,0)). -/
def selfLoopArrow : Arrow := ⟨12, 0, 0, false, true, 0, default⟩

/-- A chunk holding the self-looping cell at local (3,3). -/
def selfLoopChunk : Chunk :=
  ⟨fun x y => if x = 3 ∧ y = 3 then selfLoopArrow else default⟩

/-- A world with the self-looping cell. -/
def selfLoopWorld : World := ⟨[((0, 0), selfLoopChunk)]⟩

/-- An inactive arrow of shape `t`, function 0, rotation `r`. -/
def branchArrow (t : Nat) (r : Fin 4) : Arrow := ⟨t, 0, r, false, false, 0, default⟩

/-- The branch scenario: a shape-5 (4-way) cell at (8,8) and four shape-1
cells on its sides, each rotated to point away from the center. -/
def branchChunk : Chunk :=
  ⟨fun x y =>
    if x = 8 ∧ y = 8 then branchArrow 5 0
    else if x = 8 ∧ y = 7 then branchArrow 1 0
    else if x = 9 ∧ y = 8 then branchArrow 1 3
    else if x = 8 ∧ y = 9 then branchArrow 1 2
    else if x = 7 ∧ y = 8 then branchArrow 1 1
    else default⟩

/-- A world with the branch scenario chunk. -/
def branchWorld : World := ⟨[((0, 0), branchChunk)]⟩

/-- A one-node, size-one chain graph. -/
def unitGraph : ChainGraph := ⟨1, fun _ => 1, fun _ => Nat.one_pos, fun _ => 0, fun _ => []⟩

/-- The all-quiet node state over `unitGraph`. -/
def unitNState : NState unitGraph := ⟨fun _ _ => false, fun _ => 0⟩

/-- The all-quiet CA state over `unitGraph`. -/
def unitCState : CState unitGraph := ⟨fun _ _ => false, fun _ _ => 0⟩

/-- A two-node arena — node 0 feeding node 1, the target transparent with a
single source — ready for one `simplifyNode` fusion step. -/
def fuseDemoState : SimpState :=
  ⟨[⟨[(((0, 0), (0, 0)), 0)], 0, 1, [1], [], false⟩,
    ⟨[(((0, 0), (0, 1)), 0)], 0, 1, [], [0], false⟩], [], []⟩

/-- The position of every stored cell, in the iteration order of the
compiler passes. -/
def cellKeys (w : World) : List CellPos :=
  (worldCells w).map (fun c => (c.1, ((c.2.2.1.val : Int), (c.2.2.2.val : Int))))

/-- Whether the grid holds a non-empty cell at a position. -/
def liveCell (w : World) (k : CellPos) : Bool :=
  match w.chunkAt k.1 with
  | none => false
  | some ch => !((ch.getArrow k.2.1 k.2.2).arrowType == 0)

/-- The node arena and memo `createNodes` builds on the branch scenario
(computed by running `buildAll`; certified below by `branchBuild_eq`). -/
def branchBuild : BuildState :=
  ⟨[(((0, 0), 8, 7), 0), (((0, 0), 7, 8), 1), (((0, 0), 8, 8), 2), (((0, 0), 9, 8), 3),
    (((0, 0), 8, 9), 4)],
   [⟨[(((0, 0), (8, 7)), 0)], 0, 1, [], [2], false⟩,
    ⟨[(((0, 0), (7, 8)), 0)], 0, 1, [], [2], false⟩,
    ⟨[(((0, 0), (8, 8)), 0)], 0, 1, [1, 3, 0, 4], [], false⟩,
    ⟨[(((0, 0), (9, 8)), 0)], 0, 1, [], [2], false⟩,
    ⟨[(((0, 0), (8, 9)), 0)], 0, 1, [], [2], false⟩]⟩

/-- The compiled graph `simplifyNodes` produces on the branch scenario
(certified below by `branchSimp_eq`). -/
def branchSimp : SimpState :=
  ⟨[⟨[(((0, 0), (8, 7)), 0)], 0, 1, [], [2], false⟩,
    ⟨[(((0, 0), (7, 8)), 0)], 0, 1, [], [2], false⟩,
    ⟨[(((0, 0), (8, 8)), 0)], 0, 1, [1, 3, 0, 4], [], false⟩,
    ⟨[(((0, 0), (9, 8)), 0)], 0, 1, [], [2], false⟩,
    ⟨[(((0, 0), (8, 9)), 0)], 0, 1, [], [2], false⟩,
    ⟨[(((0, 0), (8, 7)), 0)], 0, 1, [], [], true⟩,
    ⟨[(((0, 0), (7, 8)), 0)], 0, 1, [], [], true⟩,
    ⟨[(((0, 0), (8, 8)), 0)], 0, 1, [6, 8, 5, 9], [], true⟩,
    ⟨[(((0, 0), (9, 8)), 0)], 0, 1, [], [], true⟩,
    ⟨[(((0, 0), (8, 9)), 0)], 0, 1, [], [], true⟩],
   [(0, 5), (5, 5), (1, 6), (6, 6), (2, 7), (7, 7), (3, 8), (8, 8), (4, 9), (9, 9)],
   [5, 6, 7, 8, 9]⟩

/-- The state after the recursive `simplifyNode` call on the fusion demo's
target: both nodes copied, the target's copy ready. -/
def fuseMidState : SimpState :=
  ⟨[⟨[(((0, 0), (0, 0)), 0)], 0, 1, [1], [], false⟩,
    ⟨[(((0, 0), (0, 1)), 0)], 0, 1, [], [0], false⟩,
    ⟨[(((0, 0), (0, 0)), 0)], 0, 1, [], [], false⟩,
    ⟨[(((0, 0), (0, 1)), 0)], 0, 1, [], [], true⟩],
   [(0, 2), (2, 2), (1, 3), (3, 3)],
   [2, 3]⟩


/-! ## Theorems -/

theorem activation_eq (t n : Nat) (b : Bool) : nodeActivation t n b = caActivation t n b := by
  rcases t with _ | _ | _ | _ | _ | _ | _ | t <;> rfl

theorem nat_le_sum_of_mem {l : List Nat} {a : Nat} (h : a ∈ l) : a ≤ l.sum := by
  induction l with
  | nil => cases h
  | cons x xs ih =>
    rcases List.mem_cons.mp h with h | h
    · subst h; simp [List.sum_cons]
    · have := ih h; simp [List.sum_cons]; omega

/-- C6: the resolver first negates the lateral component when mirrored and
then rotates by `rotation × 90°`: `addTargetNode` and `getArrowRelative`
apply the identical transform, the rotation-2 transform negates both
components of the mirrored offset, and the rotation-`r` transform is the
quarter-turn applied `r` times. -/
theorem c6_rotation_transform :
    (∀ (f : Bool) (r : Fin 4) (dx dy : Int),
        addTargetTransform f r dx dy = transformOffset f r dx dy) ∧
    (∀ (f : Bool) (dx dy : Int),
        transformOffset f 2 dx dy =
          (-(transformOffset f 0 dx dy).1, -(transformOffset f 0 dx dy).2)) ∧
    (∀ (f : Bool) (r : Fin 4) (dx dy : Int),
        transformOffset f r dx dy = rotStep^[r.val] (transformOffset f 0 dx dy)) := by
  refine ⟨fun f r dx dy => rfl, fun f dx dy => by cases f <;> rfl, ?_⟩
  intro f r dx dy
  fin_cases r <;> cases f <;>
    simp [transformOffset, rotStep, Function.iterate_succ, Function.iterate_zero] <;>
    ring_nf <;> simp

/-- C3: the second pass of `updateNodes` computes `active` from
`node.signalCount` and `node.lastSignal` by exactly the activation table of
`updateCA` — the two switch ladders agree for every function id, count and
previous value — then pushes `active` as the newest history entry, records
`lastSignalCount` and resets `signalCount`. -/
theorem c3_node_activation_matches_ca :
    (∀ (t n : Nat) (prev : Bool), nodeActivation t n prev = caActivation t n prev) ∧
    (∀ nd : LogicNode,
        (nodesPass2 nd).signals =
            nodeActivation nd.type nd.signalCount nd.lastSignal :: nd.signals.dropLast ∧
        (nodesPass2 nd).lastSignalCount = nd.signalCount ∧
        (nodesPass2 nd).signalCount = 0 ∧
        (nodesPass2 nd).type = nd.type ∧
        (nodesPass2 nd).targets = nd.targets) := by
  exact ⟨activation_eq, fun nd => ⟨rfl, rfl, rfl, rfl, rfl⟩⟩

theorem chunkAt_mk_map (l : List ((Int × Int) × Chunk)) (g : ((Int × Int) × Chunk) → Chunk)
    (p : Int × Int) :
    (World.mk (l.map (fun c => (c.1, g c)))).chunkAt p =
      (l.find? (fun q => decide (q.1 = p))).map g := by
  unfold World.chunkAt
  induction l with
  | nil => rfl
  | cons a l ih =>
    by_cases h : a.1 = p
    · simp [List.find?, h]
    · simpa [List.find?, h] using ih

theorem chunkAt_some (w : World) (p : Int × Int) (ch : Chunk) (h : w.chunkAt p = some ch) :
    ∃ c0, w.chunks.find? (fun q => decide (q.1 = p)) = some c0 ∧ c0.1 = p ∧ c0.2 = ch := by
  unfold World.chunkAt at h
  cases hf : w.chunks.find? (fun q => decide (q.1 = p)) with
  | none => rw [hf] at h; cases h
  | some c0 =>
    rw [hf] at h
    refine ⟨c0, rfl, ?_, by simpa using h⟩
    have := List.find?_some hf
    simpa using this

theorem getArrow_in_range (ch : Chunk) (x y : Int)
    (hx1 : 0 ≤ x) (hx2 : x < 16) (hy1 : 0 ≤ y) (hy2 : y < 16) :
    ch.getArrow x y = ch.cells ⟨x.toNat, by omega⟩ ⟨y.toNat, by omega⟩ := by
  unfold Chunk.getArrow
  rw [dif_pos ⟨hx1, hx2⟩, dif_pos ⟨hy1, hy2⟩]

theorem arrowAt_some_chunk (w : World) (p l : Int × Int) (ch : Chunk)
    (hc : w.chunkAt p = some ch) : w.arrowAt p l = ch.getArrow l.1 l.2 := by
  unfold World.arrowAt
  rw [hc]

theorem arrowAt_none_chunk (w : World) (p l : Int × Int)
    (hc : w.chunkAt p = none) : w.arrowAt p l = default := by
  unfold World.arrowAt
  rw [hc]

theorem arrowAt_pos (w : World) (p l : Int × Int) (h : 0 < (w.arrowAt p l).arrowType) :
    (∃ ch, w.chunkAt p = some ch) ∧ 0 ≤ l.1 ∧ l.1 < 16 ∧ 0 ≤ l.2 ∧ l.2 < 16 := by
  rcases hc : w.chunkAt p with _ | ch
  · rw [arrowAt_none_chunk w p l hc] at h
    exact absurd h (by decide)
  · rw [arrowAt_some_chunk w p l ch hc] at h
    unfold Chunk.getArrow at h
    refine ⟨⟨ch, rfl⟩, ?_⟩
    by_cases hx : 0 ≤ l.1 ∧ l.1 < 16
    · by_cases hy : 0 ≤ l.2 ∧ l.2 < 16
      · exact ⟨hx.1, hx.2, hy.1, hy.2⟩
      · rw [dif_pos hx, dif_neg hy] at h; exact absurd h (by decide)
    · rw [dif_neg hx] at h; exact absurd h (by decide)

theorem caPass1_arrowAt (w : World) (p l : Int × Int) (h : 0 < (w.arrowAt p l).arrowType) :
    (caPass1 w).arrowAt p l =
      { w.arrowAt p l with
        signalCount := (w.arrowAt p l).signalCount + inboundCount w (p, l) } := by
  obtain ⟨⟨ch, hc⟩, hx1, hx2, hy1, hy2⟩ := arrowAt_pos w p l h
  obtain ⟨c0, hf, hk, hch⟩ := chunkAt_some w p ch hc
  have h1 : (caPass1 w).chunkAt p =
      ((w.chunks.find? (fun q => decide (q.1 = p))).map
        (fun c => (⟨fun x y =>
          let a := c.2.cells x y
          { a with signalCount := a.signalCount + inboundCount w (c.1, (x.val, y.val)) }⟩ : Chunk))) :=
    chunkAt_mk_map w.chunks _ p
  rw [hf] at h1
  rw [arrowAt_some_chunk _ p l _ (by rw [h1]; rfl), arrowAt_some_chunk w p l ch hc]
  rw [getArrow_in_range _ _ _ hx1 hx2 hy1 hy2, getArrow_in_range _ _ _ hx1 hx2 hy1 hy2]
  have e1 : ((⟨l.1.toNat, by omega⟩ : Fin 16).val : Int) = l.1 := by
    simp [Int.toNat_of_nonneg hx1]
  have e2 : ((⟨l.2.toNat, by omega⟩ : Fin 16).val : Int) = l.2 := by
    simp [Int.toNat_of_nonneg hy1]
  show ({ c0.2.cells _ _ with
      signalCount := (c0.2.cells _ _).signalCount +
        inboundCount w (c0.1, (((⟨l.1.toNat, by omega⟩ : Fin 16).val : Int),
          ((⟨l.2.toNat, by omega⟩ : Fin 16).val : Int))) } : Arrow) = _
  simp only [e1, e2, hk, hch]

theorem caPass2Arrow_default : caPass2Arrow default = default := rfl

theorem updateCA_arrowAt (w : World) (p l : Int × Int) :
    (updateCA w).arrowAt p l = caPass2Arrow ((caPass1 w).arrowAt p l) := by
  have h1 : (updateCA w).chunkAt p =
      (((caPass1 w).chunks.find? (fun q => decide (q.1 = p))).map
        (fun c => (⟨fun x y => caPass2Arrow (c.2.cells x y)⟩ : Chunk))) :=
    chunkAt_mk_map (caPass1 w).chunks _ p
  have h2 : (caPass1 w).chunkAt p =
      ((caPass1 w).chunks.find? (fun q => decide (q.1 = p))).map (fun q => q.2) := rfl
  cases hf : (caPass1 w).chunks.find? (fun q => decide (q.1 = p)) with
  | none =>
    rw [hf] at h1 h2
    rw [arrowAt_none_chunk _ p l (by rw [h1]; rfl), arrowAt_none_chunk _ p l (by rw [h2]; rfl)]
    exact caPass2Arrow_default.symm
  | some c0 =>
    rw [hf] at h1 h2
    rw [arrowAt_some_chunk _ p l _ (by rw [h1]; rfl), arrowAt_some_chunk _ p l _ (by rw [h2]; rfl)]
    by_cases hx : 0 ≤ l.1 ∧ l.1 < 16
    · by_cases hy : 0 ≤ l.2 ∧ l.2 < 16
      · rw [getArrow_in_range _ _ _ hx.1 hx.2 hy.1 hy.2,
           getArrow_in_range _ _ _ hx.1 hx.2 hy.1 hy.2]
      · unfold Chunk.getArrow
        rw [dif_pos hx, dif_neg hy, dif_pos hx, dif_neg hy]
        exact caPass2Arrow_default.symm
    · unfold Chunk.getArrow
      rw [dif_neg hx, dif_neg hx]
      exact caPass2Arrow_default.symm

/-- C2: for every non-empty cell, one tick of `updateCA` sets `active` by
the spec's activation table — with `n` the `signalCount` accumulated by the
send pass and `prev` the pre-tick `active` — and afterwards resets
`signalCount` to 0. -/
theorem c2_ca_activation_table (w : World) (p l : Int × Int)
    (h : 0 < (w.arrowAt p l).arrowType) :
    ((updateCA w).arrowAt p l).signalCount = 0 ∧
    ((w.arrowAt p l).medalType = 0 →
      ((updateCA w).arrowAt p l).active =
        decide (0 < ((caPass1 w).arrowAt p l).signalCount)) ∧
    ((w.arrowAt p l).medalType = 1 → ((updateCA w).arrowAt p l).active = true) ∧
    ((w.arrowAt p l).medalType = 2 →
      ((updateCA w).arrowAt p l).active =
        decide (((caPass1 w).arrowAt p l).signalCount = 0)) ∧
    ((w.arrowAt p l).medalType = 3 →
      ((updateCA w).arrowAt p l).active =
        decide (2 ≤ ((caPass1 w).arrowAt p l).signalCount)) ∧
    ((w.arrowAt p l).medalType = 4 →
      ((updateCA w).arrowAt p l).active =
        decide (((caPass1 w).arrowAt p l).signalCount % 2 = 1)) ∧
    ((w.arrowAt p l).medalType = 5 →
      ((updateCA w).arrowAt p l).active =
        (if 0 < ((caPass1 w).arrowAt p l).signalCount then !(w.arrowAt p l).active
         else (w.arrowAt p l).active)) ∧
    ((w.arrowAt p l).medalType = 6 →
      ((updateCA w).arrowAt p l).active =
        (if 0 < ((caPass1 w).arrowAt p l).signalCount
         then decide (((caPass1 w).arrowAt p l).signalCount % 2 = 0)
         else (w.arrowAt p l).active)) := by
  have hA := caPass1_arrowAt w p l h
  rw [updateCA_arrowAt]
  have hT : 0 < ((caPass1 w).arrowAt p l).arrowType := by rw [hA]; simpa using h
  unfold caPass2Arrow
  rw [if_pos hT]
  have hM : ((caPass1 w).arrowAt p l).medalType = (w.arrowAt p l).medalType := by rw [hA]
  have hP : ((caPass1 w).arrowAt p l).active = (w.arrowAt p l).active := by rw [hA]
  refine ⟨rfl, ?_, ?_, ?_, ?_, ?_, ?_, ?_⟩ <;>
    · intro hm
      simp only [hM, hP, hm, caActivation]
      simp

/-- C9 (amended): after a CA tick, a non-empty cell's `lastState` snapshot
holds the cell's post-update `active` value together with the `signalCount`
accumulated this tick, captured just before it is reset — the snapshot is
taken after the activation update, not before it. -/
theorem c9_amended_snapshot (w : World) (p l : Int × Int)
    (h : 0 < (w.arrowAt p l).arrowType) :
    ((updateCA w).arrowAt p l).lastState.active = ((updateCA w).arrowAt p l).active ∧
    ((updateCA w).arrowAt p l).lastState.signalCount =
      ((caPass1 w).arrowAt p l).signalCount := by
  have hA := caPass1_arrowAt w p l h
  rw [updateCA_arrowAt]
  have hT : 0 < ((caPass1 w).arrowAt p l).arrowType := by rw [hA]; simpa using h
  unfold caPass2Arrow
  rw [if_pos hT]
  exact ⟨rfl, rfl⟩

theorem c9_amended_witness :
    ((updateCA exampleWorld).arrowAt (0, 0) (0, 0)).lastState.active =
      ((updateCA exampleWorld).arrowAt (0, 0) (0, 0)).active :=
  (c9_amended_snapshot exampleWorld (0, 0) (0, 0) (by decide)).1

set_option maxRecDepth 100000 in
/-- C9 counterexample: in `exampleWorld` the cell at the origin (a NOT cell,
inactive, receiving no signal) becomes active during the tick, and its
`lastState` snapshot records `active = true` — not the `false` it held
before the tick, refuting the claim that `lastState` holds the previous
active value. -/
theorem c9_counterexample :
    ((updateCA exampleWorld).arrowAt (0, 0) (0, 0)).lastState.active = true ∧
    (exampleWorld.arrowAt (0, 0) (0, 0)).active = false := by
  exact ⟨by decide, by decide⟩

theorem c2_witness :
    ((updateCA exampleWorld).arrowAt (0, 0) (0, 0)).signalCount = 0 :=
  (c2_ca_activation_table exampleWorld (0, 0) (0, 0) (by decide)).1

theorem rebase_spec (w : World) (cp : Int × Int) (X Y : Int)
    (hX1 : -16 ≤ X) (hX2 : X < 32) (hY1 : -16 ≤ Y) (hY2 : Y < 32) :
    rebaseLocal w cp X Y =
      (w.chunkAt (cp.1 + overflowDir X, cp.2 + overflowDir Y)).map
        (fun ch => ((cp.1 + overflowDir X, cp.2 + overflowDir Y), ch,
          (X - 16 * overflowDir X, Y - 16 * overflowDir Y))) := by
  unfold rebaseLocal overflowDir
  split_ifs <;> first
    | omega
    | (norm_num; try rfl)

theorem transform_in_range (f : Bool) (r : Fin 4) (dx dy : Int)
    (h1 : -2 ≤ dx) (h2 : dx ≤ 2) (h3 : -2 ≤ dy) (h4 : dy ≤ 2) :
    -2 ≤ (transformOffset f r dx dy).1 ∧ (transformOffset f r dx dy).1 ≤ 2 ∧
    -2 ≤ (transformOffset f r dx dy).2 ∧ (transformOffset f r dx dy).2 ≤ 2 := by
  fin_cases r <;> cases f <;> simp [transformOffset] <;> omega

theorem getAR_char (w : World) (cp : Int × Int) (a : Arrow) (x y dx dy : Int)
    (hx1 : 0 ≤ x) (hx2 : x < 16) (hy1 : 0 ≤ y) (hy2 : y < 16)
    (hdx1 : -2 ≤ (transformOffset a.flipped a.rotation dx dy).1)
    (hdx2 : (transformOffset a.flipped a.rotation dx dy).1 ≤ 2)
    (hdy1 : -2 ≤ (transformOffset a.flipped a.rotation dx dy).2)
    (hdy2 : (transformOffset a.flipped a.rotation dx dy).2 ≤ 2)
    (q : Int × Int) (b : Arrow) (l : Int × Int) :
    getArrowRelative w cp a x y dx dy = some (q, b, l) ↔
      (0 ≤ l.1 ∧ l.1 < 16 ∧ 0 ≤ l.2 ∧ l.2 < 16 ∧
       16 * q.1 + l.1 = 16 * cp.1 + x + (transformOffset a.flipped a.rotation dx dy).1 ∧
       16 * q.2 + l.2 = 16 * cp.2 + y + (transformOffset a.flipped a.rotation dx dy).2 ∧
       (w.chunkAt q).isSome ∧ b = w.arrowAt q l ∧ 0 < b.arrowType) := by
  set t := transformOffset a.flipped a.rotation dx dy with ht
  unfold getArrowRelative
  rw [← ht]
  dsimp only
  rw [rebase_spec w cp (x + t.1) (y + t.2) (by omega) (by omega) (by omega) (by omega)]
  cases hq : w.chunkAt (cp.1 + overflowDir (x + t.1), cp.2 + overflowDir (y + t.2)) with
  | none =>
    simp only [Option.map_none']
    constructor
    · intro h; cases h
    · rintro ⟨hl1, hl2, hl3, hl4, he1, he2, hs, hb, hbt⟩
      exfalso
      have hq1 : q.1 = cp.1 + overflowDir (x + t.1) := by
        unfold overflowDir; split_ifs <;> omega
      have hq2 : q.2 = cp.2 + overflowDir (y + t.2) := by
        unfold overflowDir; split_ifs <;> omega
      rw [show q = (cp.1 + overflowDir (x + t.1), cp.2 + overflowDir (y + t.2)) from
            Prod.ext hq1 hq2, hq] at hs
      cases hs
  | some ch =>
    simp only [Option.map_some']
    have hL1 : 0 ≤ x + t.1 - 16 * overflowDir (x + t.1) := by
      unfold overflowDir; split_ifs <;> omega
    have hL2 : x + t.1 - 16 * overflowDir (x + t.1) < 16 := by
      unfold overflowDir; split_ifs <;> omega
    have hL3 : 0 ≤ y + t.2 - 16 * overflowDir (y + t.2) := by
      unfold overflowDir; split_ifs <;> omega
    have hL4 : y + t.2 - 16 * overflowDir (y + t.2) < 16 := by
      unfold overflowDir; split_ifs <;> omega
    have harr : w.arrowAt (cp.1 + overflowDir (x + t.1), cp.2 + overflowDir (y + t.2))
        (x + t.1 - 16 * overflowDir (x + t.1), y + t.2 - 16 * overflowDir (y + t.2)) =
        ch.getArrow (x + t.1 - 16 * overflowDir (x + t.1))
          (y + t.2 - 16 * overflowDir (y + t.2)) :=
      arrowAt_some_chunk w _ _ ch hq
    by_cases hta : 0 < (ch.getArrow (x + t.1 - 16 * overflowDir (x + t.1))
        (y + t.2 - 16 * overflowDir (y + t.2))).arrowType
    · rw [if_pos hta, Option.some.injEq, Prod.mk.injEq, Prod.mk.injEq]
      constructor
      · rintro ⟨⟨hq1', hq2'⟩, rfl, rfl⟩
        have hqq : q = (cp.1 + overflowDir (x + t.1), cp.2 + overflowDir (y + t.2)) :=
          Prod.ext hq1'.symm hq2'.symm
        subst hqq
        dsimp only
        refine ⟨by omega, by omega, by omega, by omega, by ring, by ring, by rw [hq]; rfl,
          harr.symm, hta⟩
      · rintro ⟨hl1, hl2, hl3, hl4, he1, he2, hs, hb, hbt⟩
        have hq1 : q.1 = cp.1 + overflowDir (x + t.1) := by
          unfold overflowDir; split_ifs <;> omega
        have hq2 : q.2 = cp.2 + overflowDir (y + t.2) := by
          unfold overflowDir; split_ifs <;> omega
        have hle1 : l.1 = x + t.1 - 16 * overflowDir (x + t.1) := by omega
        have hle2 : l.2 = y + t.2 - 16 * overflowDir (y + t.2) := by omega
        have hqq : q = (cp.1 + overflowDir (x + t.1), cp.2 + overflowDir (y + t.2)) :=
          Prod.ext hq1 hq2
        have hll : l = (x + t.1 - 16 * overflowDir (x + t.1),
            y + t.2 - 16 * overflowDir (y + t.2)) := Prod.ext hle1 hle2
        refine ⟨⟨hq1.symm, hq2.symm⟩, ?_⟩
        refine Prod.ext ?_ hll.symm
        show _ = b
        rw [hb, hqq, hll]
        exact harr.symm
    · rw [if_neg hta]
      constructor
      · intro h; cases h
      · rintro ⟨hl1, hl2, hl3, hl4, he1, he2, hs, hb, hbt⟩
        exfalso
        have hq1 : q.1 = cp.1 + overflowDir (x + t.1) := by
          unfold overflowDir; split_ifs <;> omega
        have hq2 : q.2 = cp.2 + overflowDir (y + t.2) := by
          unfold overflowDir; split_ifs <;> omega
        have hle1 : l.1 = x + t.1 - 16 * overflowDir (x + t.1) := by omega
        have hle2 : l.2 = y + t.2 - 16 * overflowDir (y + t.2) := by omega
        have hqq : q = (cp.1 + overflowDir (x + t.1), cp.2 + overflowDir (y + t.2)) :=
          Prod.ext hq1 hq2
        have hll : l = (x + t.1 - 16 * overflowDir (x + t.1),
            y + t.2 - 16 * overflowDir (y + t.2)) := Prod.ext hle1 hle2
        rw [hb, hqq, hll, harr] at hbt
        exact hta hbt

/-- C7: for an in-range cell and a table offset, the resolver re-bases an
out-of-bounds transformed coordinate into the neighbor chunk selected by the
overflowing axis or axes (`overflowDir`, diagonal overflow picking a
diagonal neighbor), adding or subtracting 16 per overflowing axis so the
re-based local coordinate lies in `[0,16)²`; it yields no edge exactly when
the required chunk is missing or the resolved cell has shape 0 — silently,
with no other outcome. -/
theorem c7_chunk_rebase (w : World) (cp : Int × Int) (a : Arrow) (x y dx dy : Int)
    (hx1 : 0 ≤ x) (hx2 : x < 16) (hy1 : 0 ≤ y) (hy2 : y < 16)
    (hd1 : -2 ≤ dx) (hd2 : dx ≤ 2) (hd3 : -2 ≤ dy) (hd4 : dy ≤ 2) :
    (0 ≤ x + (transformOffset a.flipped a.rotation dx dy).1 -
        16 * overflowDir (x + (transformOffset a.flipped a.rotation dx dy).1) ∧
     x + (transformOffset a.flipped a.rotation dx dy).1 -
        16 * overflowDir (x + (transformOffset a.flipped a.rotation dx dy).1) < 16 ∧
     0 ≤ y + (transformOffset a.flipped a.rotation dx dy).2 -
        16 * overflowDir (y + (transformOffset a.flipped a.rotation dx dy).2) ∧
     y + (transformOffset a.flipped a.rotation dx dy).2 -
        16 * overflowDir (y + (transformOffset a.flipped a.rotation dx dy).2) < 16) ∧
    (getArrowRelative w cp a x y dx dy = none ↔
      (w.chunkAt (cp.1 + overflowDir (x + (transformOffset a.flipped a.rotation dx dy).1),
         cp.2 + overflowDir (y + (transformOffset a.flipped a.rotation dx dy).2)) = none ∨
       (w.arrowAt (cp.1 + overflowDir (x + (transformOffset a.flipped a.rotation dx dy).1),
           cp.2 + overflowDir (y + (transformOffset a.flipped a.rotation dx dy).2))
         (x + (transformOffset a.flipped a.rotation dx dy).1 -
            16 * overflowDir (x + (transformOffset a.flipped a.rotation dx dy).1),
          y + (transformOffset a.flipped a.rotation dx dy).2 -
            16 * overflowDir (y + (transformOffset a.flipped a.rotation dx dy).2))).arrowType
         = 0)) ∧
    (∀ (q : Int × Int) (b : Arrow) (l : Int × Int),
      getArrowRelative w cp a x y dx dy = some (q, b, l) →
        q = (cp.1 + overflowDir (x + (transformOffset a.flipped a.rotation dx dy).1),
             cp.2 + overflowDir (y + (transformOffset a.flipped a.rotation dx dy).2)) ∧
        l = (x + (transformOffset a.flipped a.rotation dx dy).1 -
               16 * overflowDir (x + (transformOffset a.flipped a.rotation dx dy).1),
             y + (transformOffset a.flipped a.rotation dx dy).2 -
               16 * overflowDir (y + (transformOffset a.flipped a.rotation dx dy).2)) ∧
        b = w.arrowAt q l ∧ 0 < b.arrowType) := by
  obtain ⟨hb1, hb2, hb3, hb4⟩ := transform_in_range a.flipped a.rotation dx dy hd1 hd2 hd3 hd4
  set t := transformOffset a.flipped a.rotation dx dy with ht
  have hL1 : 0 ≤ x + t.1 - 16 * overflowDir (x + t.1) := by
    unfold overflowDir; split_ifs <;> omega
  have hL2 : x + t.1 - 16 * overflowDir (x + t.1) < 16 := by
    unfold overflowDir; split_ifs <;> omega
  have hL3 : 0 ≤ y + t.2 - 16 * overflowDir (y + t.2) := by
    unfold overflowDir; split_ifs <;> omega
  have hL4 : y + t.2 - 16 * overflowDir (y + t.2) < 16 := by
    unfold overflowDir; split_ifs <;> omega
  refine ⟨⟨hL1, hL2, hL3, hL4⟩, ?_, ?_⟩
  · unfold getArrowRelative
    rw [← ht]
    dsimp only
    rw [rebase_spec w cp (x + t.1) (y + t.2) (by omega) (by omega) (by omega) (by omega)]
    cases hq : w.chunkAt (cp.1 + overflowDir (x + t.1), cp.2 + overflowDir (y + t.2)) with
    | none => simp
    | some ch =>
      simp only [Option.map_some']
      have harr : w.arrowAt (cp.1 + overflowDir (x + t.1), cp.2 + overflowDir (y + t.2))
          (x + t.1 - 16 * overflowDir (x + t.1), y + t.2 - 16 * overflowDir (y + t.2)) =
          ch.getArrow (x + t.1 - 16 * overflowDir (x + t.1))
            (y + t.2 - 16 * overflowDir (y + t.2)) :=
        arrowAt_some_chunk w _ _ ch hq
      rw [harr]
      by_cases hta : 0 < (ch.getArrow (x + t.1 - 16 * overflowDir (x + t.1))
          (y + t.2 - 16 * overflowDir (y + t.2))).arrowType
      · rw [if_pos hta]
        simp only [reduceCtorEq, false_iff, false_or]
        omega
      · rw [if_neg hta]
        simp only [true_iff]
        right
        omega
  · intro q b l h
    unfold getArrowRelative at h
    rw [← ht] at h
    dsimp only at h
    rw [rebase_spec w cp (x + t.1) (y + t.2) (by omega) (by omega) (by omega) (by omega)] at h
    cases hq : w.chunkAt (cp.1 + overflowDir (x + t.1), cp.2 + overflowDir (y + t.2)) with
    | none => rw [hq] at h; cases h
    | some ch =>
      rw [hq] at h
      simp only [Option.map_some'] at h
      by_cases hta : 0 < (ch.getArrow (x + t.1 - 16 * overflowDir (x + t.1))
          (y + t.2 - 16 * overflowDir (y + t.2))).arrowType
      · rw [if_pos hta, Option.some.injEq] at h
        have hq' : (cp.1 + overflowDir (x + t.1), cp.2 + overflowDir (y + t.2)) = q :=
          congrArg Prod.fst h
        have hrest := congrArg Prod.snd h
        have hb' : ch.getArrow (x + t.1 - 16 * overflowDir (x + t.1))
            (y + t.2 - 16 * overflowDir (y + t.2)) = b := congrArg Prod.fst hrest
        have hl' : (x + t.1 - 16 * overflowDir (x + t.1),
            y + t.2 - 16 * overflowDir (y + t.2)) = l := congrArg Prod.snd hrest
        refine ⟨hq'.symm, hl'.symm, ?_, by rw [← hb']; exact hta⟩
        rw [← hq', ← hl', ← hb']
        exact (arrowAt_some_chunk w _ (x + t.1 - 16 * overflowDir (x + t.1),
          y + t.2 - 16 * overflowDir (y + t.2)) ch hq).symm
      · rw [if_neg hta] at h
        cases h

theorem c7_witness :
    getArrowRelative exampleWorld (0, 0) (exampleWorld.arrowAt (0, 0) (0, 0)) 0 0 0 (-1) =
        none ↔
      (exampleWorld.chunkAt (0, -1) = none ∨
       (exampleWorld.arrowAt (0, -1) (0, 15)).arrowType = 0) :=
  (c7_chunk_rebase exampleWorld (0, 0) (exampleWorld.arrowAt (0, 0) (0, 0)) 0 0 0 (-1)
    (by decide) (by decide) (by decide) (by decide)
    (by decide) (by decide) (by decide) (by decide)).2.1

theorem shapeOffsets_subset (t : Nat) (d : Int × Int) (hd : d ∈ shapeOffsets t) :
    d ∈ allShapeOffsets := by
  rcases t with _ | _ | _ | _ | _ | _ | _ | _ | _ | _ | _ | _ | _ | _ | t <;>
    simp [shapeOffsets] at hd <;> simp [allShapeOffsets] <;> tauto

theorem transform_inv (f : Bool) (r : Fin 4) (a b : Int) :
    transformOffset f r (invTransformOffset f r a b).1 (invTransformOffset f r a b).2 =
      (a, b) := by
  fin_cases r <;> cases f <;>
    simp [transformOffset, invTransformOffset] <;> constructor <;> ring

theorem transform_zero (f : Bool) (r : Fin 4) : transformOffset f r 0 0 = (0, 0) := by
  fin_cases r <;> cases f <;> simp [transformOffset]

theorem cover_lemma :
    ∀ d ∈ allShapeOffsets, ∀ (f1 : Bool) (r1 : Fin 4) (f2 : Bool) (r2 : Fin 4),
      invTransformOffset f2 r2 (-(transformOffset f1 r1 d.1 d.2).1)
          (-(transformOffset f1 r1 d.1 d.2).2) ∈
        (((0, 0) : Int × Int) :: candidateOffsets) := by
  decide

theorem cand_bound :
    ∀ e ∈ (((0, 0) : Int × Int) :: candidateOffsets),
      -2 ≤ e.1 ∧ e.1 ≤ 2 ∧ -2 ≤ e.2 ∧ e.2 ≤ 2 := by
  decide

theorem shape_bound :
    ∀ d ∈ allShapeOffsets, -2 ≤ d.1 ∧ d.1 ≤ 2 ∧ -2 ≤ d.2 ∧ d.2 ≤ 2 := by
  decide

theorem target_mem_char (w : World) (cp : Int × Int) (a : Arrow) (x y : Int)
    (q l : Int × Int) :
    (q, l) ∈ targetPositions w cp a x y ↔
      ∃ d ∈ shapeOffsets a.arrowType, ∃ b,
        getArrowRelative w cp a x y d.1 d.2 = some (q, b, l) := by
  unfold targetPositions getTargetArrows
  rw [List.mem_map]
  constructor
  · rintro ⟨t, ht, hp⟩
    obtain ⟨d, hd, hres⟩ := List.mem_filterMap.mp ht
    refine ⟨d, hd, t.2.1, ?_⟩
    rw [hres]
    obtain ⟨q1, b1, l1⟩ := t
    simp only [Prod.mk.injEq] at hp
    simp [hp.1, hp.2]
  · rintro ⟨d, hd, b, hres⟩
    exact ⟨(q, b, l), List.mem_filterMap.mpr ⟨d, hd, hres⟩, rfl⟩

/-- C5: the reverse connectivity query is the exact inverse of the forward
one — for every pair of non-empty cells, `s` is among `getSourceArrows(c)`
iff `c` is among `getTargetArrows(s)` — and the fixed candidate set (the
cell itself plus the 12 offsets) covers, via the inverse transform, every
offset any shape table can produce under any mirroring and rotation of
source and query cell. -/
theorem c5_source_target_inverse (w : World) (cc cl sc sl : Int × Int)
    (hc : 0 < (w.arrowAt cc cl).arrowType) (hs : 0 < (w.arrowAt sc sl).arrowType) :
    ((sc, sl) ∈ sourcePositions w cc (w.arrowAt cc cl) cl.1 cl.2 ↔
      (cc, cl) ∈ targetPositions w sc (w.arrowAt sc sl) sl.1 sl.2) ∧
    (∀ (t : Nat), ∀ d ∈ shapeOffsets t, ∀ (f1 f2 : Bool) (r1 r2 : Fin 4),
      invTransformOffset f2 r2 (-(transformOffset f1 r1 d.1 d.2).1)
          (-(transformOffset f1 r1 d.1 d.2).2) ∈
        (((0, 0) : Int × Int) :: candidateOffsets)) := by
  refine ⟨?_, fun t d hd f1 f2 r1 r2 => cover_lemma d (shapeOffsets_subset t d hd) f1 r1 f2 r2⟩
  obtain ⟨⟨chc, hchc⟩, hcl1, hcl2, hcl3, hcl4⟩ := arrowAt_pos w cc cl hc
  obtain ⟨⟨chs, hchs⟩, hsl1, hsl2, hsl3, hsl4⟩ := arrowAt_pos w sc sl hs
  unfold sourcePositions getSourceArrows
  rw [List.mem_map]
  constructor
  · rintro ⟨t, ht, hp⟩
    rw [List.mem_filter] at ht
    obtain ⟨hmem, hpred⟩ := ht
    rw [decide_eq_true_eq] at hpred
    obtain ⟨q, b, l⟩ := t
    simp only [Prod.mk.injEq] at hp
    obtain ⟨hq, hl⟩ := hp
    dsimp only at hpred
    rw [← hq, ← hl]
    rcases List.mem_cons.mp hmem with hself | hcand
    · -- the self candidate: (q, b, l) = (cc, arrow, (cl.1, cl.2))
      have h1 : q = cc := congrArg Prod.fst hself
      have hrest := congrArg Prod.snd hself
      have hb' : b = w.arrowAt cc cl := congrArg Prod.fst hrest
      have h3 : l = (cl.1, cl.2) := congrArg Prod.snd hrest
      have h3' : l = cl := by rw [h3]
      rw [h1, h3']
      rw [h1, h3', hb'] at hpred
      exact hpred
    · obtain ⟨e, he, hres⟩ := List.mem_filterMap.mp hcand
      obtain ⟨hb1, hb2, hb3, hb4⟩ :=
        cand_bound e (List.mem_cons_of_mem _ he)
      obtain ⟨ht1, ht2, ht3, ht4⟩ :=
        transform_in_range (w.arrowAt cc cl).flipped (w.arrowAt cc cl).rotation e.1 e.2
          hb1 hb2 hb3 hb4
      rw [getAR_char w cc (w.arrowAt cc cl) cl.1 cl.2 e.1 e.2 hcl1 hcl2 hcl3 hcl4
        ht1 ht2 ht3 ht4 q b l] at hres
      obtain ⟨_, _, _, _, _, _, _, hbarr, _⟩ := hres
      rw [hbarr] at hpred
      exact hpred
  · intro h
    by_cases hsame : (sc, sl) = ((cc, cl) : (Int × Int) × (Int × Int))
    · -- self candidate passes the filter
      have hsc : sc = cc := congrArg Prod.fst hsame
      have hslc : sl = cl := congrArg Prod.snd hsame
      refine ⟨(cc, w.arrowAt cc cl, (cl.1, cl.2)), ?_, ?_⟩
      · rw [List.mem_filter]
        refine ⟨List.mem_cons_self _ _, ?_⟩
        rw [decide_eq_true_eq]
        show (cc, (cl.1, cl.2)) ∈ targetPositions w cc (w.arrowAt cc cl) cl.1 cl.2
        have e1 : ((cl.1, cl.2) : Int × Int) = cl := rfl
        rw [e1]
        rw [hsc, hslc] at h
        exact h
      · simp [hsc, hslc]
    · -- a genuine candidate offset
      rw [target_mem_char] at h
      obtain ⟨d, hd, b, hres⟩ := h
      have hdall := shapeOffsets_subset _ d hd
      obtain ⟨hd1, hd2, hd3, hd4⟩ := shape_bound d hdall
      obtain ⟨hs1, hs2, hs3, hs4⟩ :=
        transform_in_range (w.arrowAt sc sl).flipped (w.arrowAt sc sl).rotation d.1 d.2
          hd1 hd2 hd3 hd4
      rw [getAR_char w sc (w.arrowAt sc sl) sl.1 sl.2 d.1 d.2 hsl1 hsl2 hsl3 hsl4
        hs1 hs2 hs3 hs4 cc b cl] at hres
      obtain ⟨_, _, _, _, habs1, habs2, _, hbarr, _⟩ := hres
      -- the candidate offset seen from the queried cell
      set v1 : Int := -(transformOffset (w.arrowAt sc sl).flipped (w.arrowAt sc sl).rotation d.1 d.2).1 with hv1
      set v2 : Int := -(transformOffset (w.arrowAt sc sl).flipped (w.arrowAt sc sl).rotation d.1 d.2).2 with hv2
      set e := invTransformOffset (w.arrowAt cc cl).flipped (w.arrowAt cc cl).rotation v1 v2 with hedef
      have hecand : e ∈ (((0, 0) : Int × Int) :: candidateOffsets) := by
        rw [hedef, hv1, hv2]
        exact cover_lemma d hdall (w.arrowAt sc sl).flipped (w.arrowAt sc sl).rotation
          (w.arrowAt cc cl).flipped (w.arrowAt cc cl).rotation
      have hTe : transformOffset (w.arrowAt cc cl).flipped (w.arrowAt cc cl).rotation e.1 e.2 =
          (v1, v2) := transform_inv _ _ v1 v2
      have hTe1 : (transformOffset (w.arrowAt cc cl).flipped (w.arrowAt cc cl).rotation e.1 e.2).1 = v1 :=
        congrArg Prod.fst hTe
      have hTe2 : (transformOffset (w.arrowAt cc cl).flipped (w.arrowAt cc cl).rotation e.1 e.2).2 = v2 :=
        congrArg Prod.snd hTe
      have hene : e ≠ ((0, 0) : Int × Int) := by
        intro h0
        apply hsame
        rw [h0] at hTe
        have hz := transform_zero (w.arrowAt cc cl).flipped (w.arrowAt cc cl).rotation
        have : ((0 : Int), (0 : Int)) = (v1, v2) := by rw [← hz]; exact hTe
        have hz1 : v1 = 0 := (congrArg Prod.fst this).symm
        have hz2 : v2 = 0 := (congrArg Prod.snd this).symm
        rw [hv1] at hz1
        rw [hv2] at hz2
        have : sc.1 = cc.1 ∧ sl.1 = cl.1 ∧ sc.2 = cc.2 ∧ sl.2 = cl.2 := by
          constructor; omega; constructor; omega; constructor; omega; omega
        exact Prod.ext (Prod.ext this.1 this.2.2.1) (Prod.ext this.2.1 this.2.2.2)
      have hecand2 : e ∈ candidateOffsets := by
        rcases List.mem_cons.mp hecand with h0 | h1
        · exact absurd h0 hene
        · exact h1
      obtain ⟨he1, he2, he3, he4⟩ := cand_bound e hecand
      obtain ⟨hf1, hf2, hf3, hf4⟩ :=
        transform_in_range (w.arrowAt cc cl).flipped (w.arrowAt cc cl).rotation e.1 e.2
          (by omega) (by omega) (by omega) (by omega)
      have hresolved : getArrowRelative w cc (w.arrowAt cc cl) cl.1 cl.2 e.1 e.2 =
          some (sc, w.arrowAt sc sl, sl) := by
        rw [getAR_char w cc (w.arrowAt cc cl) cl.1 cl.2 e.1 e.2 hcl1 hcl2 hcl3 hcl4
          hf1 hf2 hf3 hf4 sc (w.arrowAt sc sl) sl]
        refine ⟨hsl1, hsl2, hsl3, hsl4, ?_, ?_, by rw [hchs]; rfl, rfl, hs⟩
        · rw [hTe1, hv1]; omega
        · rw [hTe2, hv2]; omega
      refine ⟨(sc, w.arrowAt sc sl, sl), ?_, rfl⟩
      rw [List.mem_filter]
      refine ⟨List.mem_cons_of_mem _ ?_, ?_⟩
      · exact List.mem_filterMap.mpr ⟨e, hecand2, hresolved⟩
      · rw [decide_eq_true_eq]
        show (cc, (cl.1, cl.2)) ∈ targetPositions w sc (w.arrowAt sc sl) sl.1 sl.2
        have e1 : (cl.1, cl.2) = cl := rfl
        rw [e1]
        rw [target_mem_char]
        exact ⟨d, hd, b, by
          rw [getAR_char w sc (w.arrowAt sc sl) sl.1 sl.2 d.1 d.2 hsl1 hsl2 hsl3 hsl4
            hs1 hs2 hs3 hs4 cc b cl]
          exact ⟨hcl1, hcl2, hcl3, hcl4, habs1, habs2, by rw [hchc]; rfl, hbarr, by
            rw [hbarr]; exact hc⟩⟩

theorem c5_witness :
    (((0, 0), (0, 1)) ∈
        sourcePositions exampleWorld (0, 0) (exampleWorld.arrowAt (0, 0) (0, 0)) 0 0 ↔
      ((0, 0), (0, 0)) ∈
        targetPositions exampleWorld (0, 0) (exampleWorld.arrowAt (0, 0) (0, 1)) 0 1) :=
  (c5_source_target_inverse exampleWorld (0, 0) (0, 0) (0, 0) (0, 1)
    (by decide) (by decide)).1

theorem coherent_step (G : ChainGraph) (S : NState G) (A : CState G)
    (h : coherentCG G S A) : coherentCG G (nodeTickCG G S) (caTickCG G A) := by
  obtain ⟨h1, h2, h3⟩ := h
  refine ⟨?_, fun i => rfl, fun i o => rfl⟩
  intro i o
  show _ = caActivation (cellFnCG G i o) (A.count i o + caInboundCG G A i o) (A.act i o)
  unfold nodeTickCG
  dsimp only
  by_cases h0 : o.val = 0
  · rw [dif_pos h0, activation_eq]
    have ho : o = G.headIdx i := by
      apply Fin.ext
      simp [ChainGraph.headIdx, h0]
    have hsum : nodeInboundCG G S i = caInboundCG G A i o := by
      unfold nodeInboundCG caInboundCG
      rw [if_pos h0]
      exact Finset.sum_congr rfl (fun j _ => by rw [h1])
    have hfn : cellFnCG G i o = G.nodeFn i := by unfold cellFnCG; rw [if_pos h0]
    rw [h2 i, hsum, h1 i (G.headIdx i), ← ho, hfn, h3 i o]
  · rw [dif_neg h0]
    have hfn : cellFnCG G i o = 0 := by unfold cellFnCG; rw [if_neg h0]
    have hlt : o.val - 1 < G.nodeSize i := by omega
    rw [hfn, h3 i o, h1 i ⟨o.val - 1, hlt⟩]
    unfold caInboundCG
    rw [if_neg h0]
    unfold caActivation
    simp only [if_pos rfl]
    cases hact : A.act i ⟨o.val - 1, hlt⟩ with
    | false => simp [hact]
    | true => simp [hact]

/-- C1: over a compiled chain graph — each node a run of cells with the
node's logic function at the head and pass-through cells behind it, exactly
the shape `simplifyNode` produces — running `k` ticks of the per-cell CA
update (`caTickCG`, the activation table of `updateCA` with the send pass's
counting) and `k` ticks of the node update (`nodeTickCG`, the shift-register
semantics of `updateNodes`) from the same initial cell states yields
identical per-cell active values at every tick and every cell: a size-S
node is exactly an S-deep shift register standing in for its chain of
cells.  Agreement at every `k` subsumes the claim's allowance of
re-timing by chain length for `k` at least the maximum node size. -/
theorem c1_ca_node_equivalence (G : ChainGraph) (S : NState G) (A : CState G)
    (h : coherentCG G S A) :
    ∀ (k : Nat) (i : Fin G.numNodes) (o : Fin (G.nodeSize i)),
      (nodeRunCG G k S).signals i o = (caRunCG G k A).act i o := by
  intro k
  induction k generalizing S A with
  | zero => exact h.1
  | succ k ih =>
    show ∀ i o, (nodeRunCG G k (nodeTickCG G S)).signals i o =
      (caRunCG G k (caTickCG G A)).act i o
    exact ih (nodeTickCG G S) (caTickCG G A) (coherent_step G S A h)

theorem c1_witness :
    (nodeRunCG unitGraph 3 unitNState).signals ⟨0, by decide⟩ ⟨0, by decide⟩ =
      (caRunCG unitGraph 3 unitCState).act ⟨0, by decide⟩ ⟨0, by decide⟩ :=
  c1_ca_node_equivalence unitGraph unitNState unitCState
    ⟨fun i o => rfl, fun i => rfl, fun i o => rfl⟩ 3 ⟨0, by decide⟩ ⟨0, by decide⟩

theorem modifyIdx_length {α : Type} (l : List α) (i : Nat) (f : α → α) :
    (modifyIdx l i f).length = l.length := by
  induction l generalizing i with
  | nil => rfl
  | cons a l ih =>
    cases i with
    | zero => rfl
    | succ i => simp [modifyIdx, ih]

theorem getD_modifyIdx_ne {α : Type} (l : List α) (i j : Nat) (f : α → α) (d : α)
    (h : i ≠ j) : (modifyIdx l j f).getD i d = l.getD i d := by
  induction l generalizing i j with
  | nil => rfl
  | cons a l ih =>
    cases j with
    | zero =>
      cases i with
      | zero => exact absurd rfl h
      | succ i => rfl
    | succ j =>
      cases i with
      | zero => rfl
      | succ i => exact ih i j (by omega)

theorem getD_modifyIdx_self {α : Type} (l : List α) (j : Nat) (f : α → α) (d : α)
    (h : j < l.length) : (modifyIdx l j f).getD j d = f (l.getD j d) := by
  induction l generalizing j with
  | nil => simp at h
  | cons a l ih =>
    cases j with
    | zero => rfl
    | succ j => exact ih j (by simpa using h)

theorem lookupA_append_left {α β : Type} [DecidableEq α] (l l2 : List (α × β)) (k : α)
    (v : β) (h : lookupA l k = some v) : lookupA (l ++ l2) k = some v := by
  induction l with
  | nil => simp [lookupA] at h
  | cons a l ih =>
    by_cases ha : a.1 = k
    · simp only [lookupA, List.cons_append, List.find?_cons, decide_eq_true ha] at h ⊢
      exact h
    · simp only [lookupA, List.cons_append, List.find?_cons,
        show decide (a.1 = k) = false from decide_eq_false ha] at h ⊢
      exact ih h

theorem lookupA_append_right {α β : Type} [DecidableEq α] (l l2 : List (α × β)) (k : α)
    (h : lookupA l k = none) : lookupA (l ++ l2) k = lookupA l2 k := by
  induction l with
  | nil => rfl
  | cons a l ih =>
    by_cases ha : a.1 = k
    · simp [lookupA, List.find?_cons, ha] at h
    · simp only [lookupA, List.cons_append, List.find?_cons,
        show decide (a.1 = k) = false from decide_eq_false ha] at h ⊢
      exact ih h

theorem bext_refl (s : BuildState) : BuildExt s s :=
  ⟨fun _ _ h => h, le_refl _, fun _ _ _ ht => ht⟩

theorem bext_trans {s1 s2 s3 : BuildState} (h12 : BuildExt s1 s2) (h23 : BuildExt s2 s3) :
    BuildExt s1 s3 :=
  ⟨fun k v h => h23.1 k v (h12.1 k v h), le_trans h12.2.1 h23.2.1,
   fun i t hi ht => h23.2.2 i t (lt_of_lt_of_le hi h12.2.1) (h12.2.2 i t hi ht)⟩

theorem bext_mods (st : BuildState) (id tid : Nat) :
    BuildExt st
      ⟨st.memo,
       modifyIdx (modifyIdx st.nodes id (fun nd => { nd with targets := nd.targets ++ [tid] }))
         tid (fun nd => { nd with sources := nd.sources ++ [id] })⟩ := by
  refine ⟨fun _ _ h => h, ?_, ?_⟩
  · simp [modifyIdx_length]
  · intro i t hi ht
    show t ∈ ((modifyIdx (modifyIdx st.nodes id _) tid _).getD i default).targets
    by_cases hit : i = tid
    · subst hit
      rw [getD_modifyIdx_self _ i _ _ (by rw [modifyIdx_length]; omega)]
      dsimp only
      by_cases hid : i = id
      · subst hid
        rw [getD_modifyIdx_self _ i _ _ (by omega)]
        exact List.mem_append_left _ ht
      · rw [getD_modifyIdx_ne _ i id _ _ hid]
        exact ht
    · rw [getD_modifyIdx_ne _ i tid _ _ hit]
      by_cases hid : i = id
      · subst hid
        rw [getD_modifyIdx_self _ i _ _ (by omega)]
        exact List.mem_append_left _ ht
      · rw [getD_modifyIdx_ne _ i id _ _ hid]
        exact ht

theorem bext_insert (st : BuildState) (k : CellPos) (nd : GNode) :
    BuildExt st ⟨st.memo ++ [(k, st.nodes.length)], st.nodes ++ [nd]⟩ := by
  refine ⟨fun k2 v h => lookupA_append_left _ _ k2 v h, by simp, ?_⟩
  intro i t hi ht
  rw [List.getD_append _ _ _ _ hi]
  exact ht

theorem build_ext (w : World) : ∀ (fuel : Nat),
    (∀ st cp x y, BuildExt st (createNode w fuel st cp x y).1) ∧
    (∀ st id cp a x y d, BuildExt st (addTargetNode w fuel st id cp a x y d)) ∧
    (∀ ds st id cp a x y, BuildExt st (buildTargets w fuel st id cp a x y ds)) := by
  intro fuel
  induction fuel with
  | zero =>
    have hzero : ∀ st cp x y, BuildExt st (createNode w 0 st cp x y).1 := by
      intro st cp x y
      unfold createNode
      exact bext_refl st
    have hadd : ∀ st id cp a x y d, BuildExt st (addTargetNode w 0 st id cp a x y d) := by
      intro st id cp a x y d
      unfold addTargetNode
      dsimp only
      cases rebaseLocal w cp (x + (addTargetTransform a.flipped a.rotation d.1 d.2).1)
          (y + (addTargetTransform a.flipped a.rotation d.1 d.2).2) with
      | none => exact bext_refl st
      | some r =>
        obtain ⟨cp2, ch2, l2⟩ := r
        dsimp only
        unfold createNode
        exact bext_refl st
    refine ⟨hzero, hadd, ?_⟩
    intro ds
    induction ds with
    | nil =>
      intro st id cp a x y
      unfold buildTargets
      exact bext_refl st
    | cons d ds ihds =>
      intro st id cp a x y
      unfold buildTargets
      exact bext_trans (hadd st id cp a x y d) (ihds _ _ _ _ _ _)
  | succ fuel ih =>
    have hcreate : ∀ st cp x y, BuildExt st (createNode w (fuel + 1) st cp x y).1 := by
      intro st cp x y
      unfold createNode
      cases w.chunkAt cp with
      | none => exact bext_refl st
      | some ch =>
        dsimp only
        by_cases h0 : (ch.getArrow x y).arrowType = 0
        · rw [if_pos h0]
          exact bext_refl st
        · rw [if_neg h0]
          cases lookupA st.memo (cp, (x, y)) with
          | some id => exact bext_refl st
          | none =>
            exact bext_trans (bext_insert st (cp, (x, y)) _) (ih.2.2 _ _ _ _ _ _ _)
    have hadd : ∀ st id cp a x y d,
        BuildExt st (addTargetNode w (fuel + 1) st id cp a x y d) := by
      intro st id cp a x y d
      unfold addTargetNode
      dsimp only
      cases rebaseLocal w cp (x + (addTargetTransform a.flipped a.rotation d.1 d.2).1)
          (y + (addTargetTransform a.flipped a.rotation d.1 d.2).2) with
      | none => exact bext_refl st
      | some r =>
        obtain ⟨cp2, ch2, l2⟩ := r
        dsimp only
        have hc := hcreate st cp2 l2.1 l2.2
        cases hcr : createNode w (fuel + 1) st cp2 l2.1 l2.2 with
        | mk st1 tidQ =>
          rw [hcr] at hc
          cases tidQ with
          | none => exact hc
          | some tid => exact bext_trans hc (bext_mods st1 id tid)
    have hbt : ∀ ds st id cp a x y,
        BuildExt st (buildTargets w (fuel + 1) st id cp a x y ds) := by
      intro ds
      induction ds with
      | nil =>
        intro st id cp a x y
        unfold buildTargets
        exact bext_refl st
      | cons d ds ihds =>
        intro st id cp a x y
        unfold buildTargets
        exact bext_trans (hadd st id cp a x y d) (ihds _ _ _ _ _ _)
    exact ⟨hcreate, hadd, hbt⟩

theorem worldCells_mem (w : World) (c0 : (Int × Int) × Chunk) (hc : c0 ∈ w.chunks)
    (x y : Fin 16) : (c0.1, c0.2, x, y) ∈ worldCells w := by
  unfold worldCells
  rw [List.mem_flatten]
  refine ⟨_, List.mem_map_of_mem _ hc, ?_⟩
  rw [List.mem_flatten]
  refine ⟨_, List.mem_map_of_mem _ (List.mem_finRange y), ?_⟩
  exact List.mem_map_of_mem _ (List.mem_finRange x)

theorem transform_zero_fst (f : Bool) (r : Fin 4) : (transformOffset f r 0 0).1 = 0 :=
  congrArg Prod.fst (transform_zero f r)

theorem transform_zero_snd (f : Bool) (r : Fin 4) : (transformOffset f r 0 0).2 = 0 :=
  congrArg Prod.snd (transform_zero f r)

theorem self_resolution (w : World) (cp l : Int × Int)
    (h : 0 < (w.arrowAt cp l).arrowType) :
    getArrowRelative w cp (w.arrowAt cp l) l.1 l.2 0 0 =
      some (cp, w.arrowAt cp l, (l.1, l.2)) := by
  obtain ⟨⟨ch, hc⟩, hcl1, hcl2, hcl3, hcl4⟩ := arrowAt_pos w cp l h
  rw [getAR_char w cp (w.arrowAt cp l) l.1 l.2 0 0 hcl1 hcl2 hcl3 hcl4
    (by rw [transform_zero_fst]; omega) (by rw [transform_zero_fst]; omega)
    (by rw [transform_zero_snd]; omega) (by rw [transform_zero_snd]; omega)
    cp (w.arrowAt cp l) (l.1, l.2)]
  refine ⟨hcl1, hcl2, hcl3, hcl4, ?_, ?_, by rw [hc]; rfl, rfl, h⟩
  · rw [transform_zero_fst]; ring
  · rw [transform_zero_snd]; ring

theorem inbound_self (w : World) (cp l : Int × Int)
    (h : 0 < (w.arrowAt cp l).arrowType)
    (h12 : (w.arrowAt cp l).arrowType = 12 ∨ (w.arrowAt cp l).arrowType = 13)
    (hact : (w.arrowAt cp l).active = true) :
    1 ≤ inboundCount w (cp, l) := by
  obtain ⟨⟨ch, hc⟩, hcl1, hcl2, hcl3, hcl4⟩ := arrowAt_pos w cp l h
  obtain ⟨c0, hf, hk, hch⟩ := chunkAt_some w cp ch hc
  have hmem : (c0.1, c0.2, (⟨l.1.toNat, by omega⟩ : Fin 16), (⟨l.2.toNat, by omega⟩ : Fin 16)) ∈
      worldCells w :=
    worldCells_mem w c0 (List.mem_of_find?_eq_some hf) _ _
  have harr : c0.2.cells ⟨l.1.toNat, by omega⟩ ⟨l.2.toNat, by omega⟩ = w.arrowAt cp l := by
    rw [arrowAt_some_chunk w cp l ch hc, getArrow_in_range ch l.1 l.2 hcl1 hcl2 hcl3 hcl4, hch]
  have hcoord1 : (((⟨l.1.toNat, by omega⟩ : Fin 16) : Nat) : Int) = l.1 := by
    simp [Int.toNat_of_nonneg hcl1]
  have hcoord2 : (((⟨l.2.toNat, by omega⟩ : Fin 16) : Nat) : Int) = l.2 := by
    simp [Int.toNat_of_nonneg hcl3]
  have hcontrib : 1 ≤ cellContribution w (cp, l)
      (c0.1, c0.2, ⟨l.1.toNat, by omega⟩, ⟨l.2.toNat, by omega⟩) := by
    unfold cellContribution
    dsimp only
    rw [harr, if_pos ⟨h, hact⟩]
    show 0 < _
    rw [List.countP_pos]
    refine ⟨(0, 0), ?_, ?_⟩
    · rcases h12 with h12 | h12 <;> rw [h12] <;> decide
    · rw [decide_eq_true_eq]
      show sendTargetPos w c0.1 (w.arrowAt cp l) ((l.1.toNat : Int)) ((l.2.toNat : Int)) (0, 0) =
        some (cp, l)
      unfold sendTargetPos
      rw [hk, Int.toNat_of_nonneg hcl1, Int.toNat_of_nonneg hcl3,
          self_resolution w cp l h]
      rfl
  exact le_trans hcontrib (nat_le_sum_of_mem (List.mem_map_of_mem _ hmem))

theorem addT_zero (f : Bool) (r : Fin 4) : addTargetTransform f r 0 0 = (0, 0) := by
  fin_cases r <;> cases f <;> simp [addTargetTransform]

theorem createNode_memo_hit (w : World) (fuel : Nat) (st : BuildState) (cp l : Int × Int)
    (idn : Nat) (h : 0 < (w.arrowAt cp l).arrowType)
    (hlk : lookupA st.memo (cp, (l.1, l.2)) = some idn) :
    createNode w (fuel + 1) st cp l.1 l.2 = (st, some idn) := by
  obtain ⟨⟨ch, hc⟩, hcl1, hcl2, hcl3, hcl4⟩ := arrowAt_pos w cp l h
  have harr : ch.getArrow l.1 l.2 = w.arrowAt cp l := (arrowAt_some_chunk w cp l ch hc).symm
  unfold createNode
  rw [hc]
  dsimp only
  rw [if_neg (by rw [harr]; omega), hlk]

theorem addTarget_self_loop (w : World) (fuel : Nat) (st : BuildState) (idn : Nat)
    (cp l : Int × Int) (a : Arrow) (h : 0 < (w.arrowAt cp l).arrowType)
    (hlk : lookupA st.memo (cp, (l.1, l.2)) = some idn)
    (hlen : idn < st.nodes.length) :
    idn ∈ ((addTargetNode w (fuel + 1) st idn cp a l.1 l.2 (0, 0)).nodes.getD
      idn default).targets := by
  obtain ⟨⟨ch, hc⟩, hcl1, hcl2, hcl3, hcl4⟩ := arrowAt_pos w cp l h
  have hz1 : (addTargetTransform a.flipped a.rotation 0 0).1 = 0 :=
    congrArg Prod.fst (addT_zero a.flipped a.rotation)
  have hz2 : (addTargetTransform a.flipped a.rotation 0 0).2 = 0 :=
    congrArg Prod.snd (addT_zero a.flipped a.rotation)
  have hov1 : overflowDir (l.1 + (addTargetTransform a.flipped a.rotation 0 0).1) = 0 := by
    rw [hz1]; unfold overflowDir; split_ifs <;> omega
  have hov2 : overflowDir (l.2 + (addTargetTransform a.flipped a.rotation 0 0).2) = 0 := by
    rw [hz2]; unfold overflowDir; split_ifs <;> omega
  have hreb : rebaseLocal w cp (l.1 + (addTargetTransform a.flipped a.rotation 0 0).1)
      (l.2 + (addTargetTransform a.flipped a.rotation 0 0).2) = some (cp, ch, (l.1, l.2)) := by
    rw [rebase_spec w cp _ _ (by omega) (by omega) (by omega) (by omega), hov1, hov2]
    simp only [hz1, hz2, add_zero, mul_zero, sub_zero, Prod.mk.eta]
    rw [hc]
    rfl
  unfold addTargetNode
  dsimp only
  rw [hreb]
  dsimp only
  rw [createNode_memo_hit w fuel st cp l idn h hlk]
  dsimp only
  rw [getD_modifyIdx_self _ idn _ _ (by rw [modifyIdx_length]; omega)]
  dsimp only
  rw [getD_modifyIdx_self _ idn _ _ (by omega)]
  exact List.mem_append_right _ (List.mem_singleton_self idn)

/-- C10: shapes 12 and 13 contain the relative offset (0,0), which every
mirror/rotation fixes, so an active such cell sends a signal to itself each
`updateCA` send pass (its `signalCount` strictly grows), and `createNode`
lists the cell's own node among its targets. -/
theorem c10_self_target :
    ((0, 0) ∈ shapeOffsets 12 ∧ (0, 0) ∈ shapeOffsets 13 ∧
     (0, 0) ∈ caSendOffsets 12 ∧ (0, 0) ∈ caSendOffsets 13 ∧
     (0, 0) ∈ createOffsets 12 ∧ (0, 0) ∈ createOffsets 13) ∧
    (∀ (f : Bool) (r : Fin 4),
      transformOffset f r 0 0 = (0, 0) ∧ addTargetTransform f r 0 0 = (0, 0)) ∧
    (∀ (w : World) (cp l : Int × Int),
      0 < (w.arrowAt cp l).arrowType →
      ((w.arrowAt cp l).arrowType = 12 ∨ (w.arrowAt cp l).arrowType = 13) →
      (w.arrowAt cp l).active = true →
      (w.arrowAt cp l).signalCount + 1 ≤ ((caPass1 w).arrowAt cp l).signalCount) ∧
    (∀ (w : World) (st : BuildState) (fuel : Nat) (cp l : Int × Int),
      0 < (w.arrowAt cp l).arrowType →
      ((w.arrowAt cp l).arrowType = 12 ∨ (w.arrowAt cp l).arrowType = 13) →
      lookupA st.memo (cp, (l.1, l.2)) = none →
      (createNode w (fuel + 2) st cp l.1 l.2).2 = some st.nodes.length ∧
      st.nodes.length ∈
        (((createNode w (fuel + 2) st cp l.1 l.2).1).nodes.getD st.nodes.length
          default).targets) := by
  refine ⟨by refine ⟨?_, ?_, ?_, ?_, ?_, ?_⟩ <;> decide,
    fun f r => ⟨transform_zero f r, addT_zero f r⟩, ?_, ?_⟩
  · intro w cp l h h12 hact
    rw [caPass1_arrowAt w cp l h]
    have := inbound_self w cp l h h12 hact
    show (w.arrowAt cp l).signalCount + 1 ≤
      (w.arrowAt cp l).signalCount + inboundCount w (cp, l)
    omega
  · intro w st fuel cp l h h12 hmemo
    obtain ⟨⟨ch, hc⟩, hcl1, hcl2, hcl3, hcl4⟩ := arrowAt_pos w cp l h
    have harr : ch.getArrow l.1 l.2 = w.arrowAt cp l := (arrowAt_some_chunk w cp l ch hc).symm
    have hstep : createNode w (fuel + 2) st cp l.1 l.2 =
        (buildTargets w (fuel + 1)
          ⟨st.memo ++ [((cp, (l.1, l.2)), st.nodes.length)],
           st.nodes ++ [⟨[((cp, (l.1, l.2)), 0)], (ch.getArrow l.1 l.2).medalType, 1, [], [],
             false⟩]⟩
          st.nodes.length cp (ch.getArrow l.1 l.2) l.1 l.2
          (createOffsets (ch.getArrow l.1 l.2).arrowType), some st.nodes.length) := by
      unfold createNode
      rw [hc]
      dsimp only
      rw [if_neg (by rw [harr]; omega), hmemo]
    set st1 : BuildState :=
      ⟨st.memo ++ [((cp, (l.1, l.2)), st.nodes.length)],
       st.nodes ++ [⟨[((cp, (l.1, l.2)), 0)], (ch.getArrow l.1 l.2).medalType, 1, [], [],
         false⟩]⟩ with hst1
    have hlk1 : lookupA st1.memo (cp, (l.1, l.2)) = some st.nodes.length := by
      rw [hst1]
      show lookupA (st.memo ++ [((cp, (l.1, l.2)), st.nodes.length)]) (cp, (l.1, l.2)) =
        some st.nodes.length
      rw [lookupA_append_right st.memo _ _ hmemo]
      simp [lookupA]
    have hlen1 : st.nodes.length < st1.nodes.length := by rw [hst1]; simp
    rw [hstep]
    refine ⟨rfl, ?_⟩
    show st.nodes.length ∈
      ((buildTargets w (fuel + 1) st1 st.nodes.length cp (ch.getArrow l.1 l.2) l.1 l.2
        (createOffsets (ch.getArrow l.1 l.2).arrowType)).nodes.getD st.nodes.length
          default).targets
    rw [harr]
    rcases h12 with h12 | h12
    · rw [h12]
      show st.nodes.length ∈
        ((buildTargets w (fuel + 1) st1 st.nodes.length cp (w.arrowAt cp l) l.1 l.2
          [(0, 0), (0, -1)]).nodes.getD st.nodes.length default).targets
      simp only [buildTargets]
      have hm2 := addTarget_self_loop w fuel st1 st.nodes.length cp l (w.arrowAt cp l) h hlk1
        hlen1
      have hext := (build_ext w (fuel + 1)).2.1
        (addTargetNode w (fuel + 1) st1 st.nodes.length cp (w.arrowAt cp l) l.1 l.2 (0, 0))
        st.nodes.length cp (w.arrowAt cp l) l.1 l.2 (0, -1)
      have hlen2 : st.nodes.length <
          (addTargetNode w (fuel + 1) st1 st.nodes.length cp (w.arrowAt cp l) l.1 l.2
            (0, 0)).nodes.length :=
        lt_of_lt_of_le hlen1 ((build_ext w (fuel + 1)).2.1 st1 st.nodes.length cp
          (w.arrowAt cp l) l.1 l.2 (0, 0)).2.1
      exact hext.2.2 st.nodes.length st.nodes.length hlen2 hm2
    · rw [h12]
      show st.nodes.length ∈
        ((buildTargets w (fuel + 1) st1 st.nodes.length cp (w.arrowAt cp l) l.1 l.2
          [(-1, 0), (0, 0), (1, 0)]).nodes.getD st.nodes.length default).targets
      simp only [buildTargets]
      set st2 := addTargetNode w (fuel + 1) st1 st.nodes.length cp (w.arrowAt cp l) l.1 l.2
        (-1, 0) with hst2
      have hext12 := (build_ext w (fuel + 1)).2.1 st1 st.nodes.length cp (w.arrowAt cp l)
        l.1 l.2 (-1, 0)
      have hlk2 : lookupA st2.memo (cp, (l.1, l.2)) = some st.nodes.length :=
        hext12.1 _ _ hlk1
      have hlen2 : st.nodes.length < st2.nodes.length := lt_of_lt_of_le hlen1 hext12.2.1
      have hm3 := addTarget_self_loop w fuel st2 st.nodes.length cp l (w.arrowAt cp l) h hlk2
        hlen2
      have hext34 := (build_ext w (fuel + 1)).2.1
        (addTargetNode w (fuel + 1) st2 st.nodes.length cp (w.arrowAt cp l) l.1 l.2 (0, 0))
        st.nodes.length cp (w.arrowAt cp l) l.1 l.2 (1, 0)
      have hlen3 : st.nodes.length <
          (addTargetNode w (fuel + 1) st2 st.nodes.length cp (w.arrowAt cp l) l.1 l.2
            (0, 0)).nodes.length :=
        lt_of_lt_of_le hlen2 ((build_ext w (fuel + 1)).2.1 st2 st.nodes.length cp
          (w.arrowAt cp l) l.1 l.2 (0, 0)).2.1
      exact hext34.2.2 st.nodes.length st.nodes.length hlen3 hm3

theorem c10_witness :
    (createNode selfLoopWorld 7 ⟨[], []⟩ (0, 0) 3 3).2 = some 0 ∧
    0 ∈ ((createNode selfLoopWorld 7 ⟨[], []⟩ (0, 0) 3 3).1.nodes.getD 0 default).targets :=
  c10_self_target.2.2.2 selfLoopWorld ⟨[], []⟩ 5 (0, 0) (3, 3)
    (by decide) (by decide) (by decide)

/-- C8 (amended): on the medal-selection path the affected cell is first
split to the head of its node (split at its offset) and then isolated into a
single-cell node carrying the new function; on the medal-clearing KeyR path
`updateNode` receives only the owning node — no cell offset — so it isolates
and updates the node's head cell, which is the affected cell only when that
cell sits at offset 0. -/
theorem c8_amended_paths :
    (∀ (nodes : List RNode) (nd : RNode) (off fn : Nat), off < nd.arrows.length →
       (⟨(nd.arrows.drop off).take 1, fn⟩ : RNode) ∈ medalSelectPath nodes nd off fn) ∧
    (∀ (nodes : List RNode) (nd : RNode), nd.arrows ≠ [] →
       (⟨nd.arrows.take 1, 0⟩ : RNode) ∈ keyRClearPath nodes nd) := by
  constructor
  · intro nodes nd off fn hoff
    unfold medalSelectPath splitNode
    dsimp only
    unfold updateNodeR
    by_cases h1 : (nd.arrows.drop off).length ≤ 1
    · rw [if_pos h1]
      rw [List.take_of_length_le h1]
      exact List.mem_append_right _ (List.mem_singleton_self _)
    · rw [if_neg h1]
      exact List.mem_append_right _ (List.mem_cons_self _ _)
  · intro nodes nd hne
    unfold keyRClearPath updateNodeR
    by_cases h1 : nd.arrows.length ≤ 1
    · rw [if_pos h1]
      rw [List.take_of_length_le h1]
      exact List.mem_append_right _ (List.mem_singleton_self _)
    · rw [if_neg h1]
      exact List.mem_append_right _ (List.mem_cons_self _ _)

theorem c8_witness :
    (⟨[7], 4⟩ : RNode) ∈ medalSelectPath [⟨[5, 7, 9], 0⟩] ⟨[5, 7, 9], 0⟩ 1 4 :=
  c8_amended_paths.1 [⟨[5, 7, 9], 0⟩] ⟨[5, 7, 9], 0⟩ 1 4 (by decide)

/-- C8 counterexample: clearing the medal of the offset-1 cell (cell id 1)
of a three-cell node via the KeyR path never isolates that cell — the
resulting live set contains no single-cell node `[1]` with either the new
or the old function — because `updateNode` is called with the whole node
and no offset, refuting the claim that every function-changing path splits
at the affected cell's offset first. -/
theorem c8_counterexample :
    (⟨[1], 0⟩ : RNode) ∉ keyRClearPath [⟨[0, 1, 2], 3⟩] ⟨[0, 1, 2], 3⟩ ∧
    (⟨[1], 3⟩ : RNode) ∉ keyRClearPath [⟨[0, 1, 2], 3⟩] ⟨[0, 1, 2], 3⟩ := by
  exact ⟨by decide, by decide⟩

/-- `SimpPreserve` is reflexive. -/
theorem sp_refl (s : SimpState) : SimpPreserve s s := ⟨le_refl _, fun _ _ => rfl⟩

/-- Preservation of the original arena entries survives the bookkeeping of
one `simplifyNode` body: inserting the copy and then modifying it (the copy
sits past every original index). -/
theorem sp_after_modify (st : SimpState) (rid : Nat) (st2 : SimpState) (f : GNode → GNode)
    (memo2 : List (Nat × Nat)) (live2 : List Nat)
    (hrec : SimpPreserve (insertCopy st rid).1 st2) :
    SimpPreserve st ⟨modifyIdx st2.nodes (insertCopy st rid).2 f, memo2, live2⟩ := by
  have hlen1 : (insertCopy st rid).1.nodes.length = st.nodes.length + 1 := by simp [insertCopy]
  have hsid : (insertCopy st rid).2 = st.nodes.length := rfl
  have hl2 := hrec.1
  refine ⟨?_, ?_⟩
  · show st.nodes.length ≤ (modifyIdx st2.nodes _ f).length
    rw [modifyIdx_length]
    omega
  · intro i hi
    show (modifyIdx st2.nodes (insertCopy st rid).2 f).getD i default = _
    rw [getD_modifyIdx_ne _ i _ _ _ (by rw [hsid]; omega)]
    rw [hrec.2 i (by omega)]
    show (st.nodes ++ [copyNode (st.nodes.getD rid default)]).getD i default = _
    rw [List.getD_append _ _ _ _ hi]

/-- The simplification pass never touches a pre-existing arena entry: joint
fuel induction over `simplifyNode` and `simplifyMany`, the latter also
keeping the visited copy's own cells and size. -/
theorem simp_preserve : ∀ (fuel : Nat),
    (∀ st rid, SimpPreserve st (simplifyNode fuel st rid).1) ∧
    (∀ ts st sid, sid < st.nodes.length →
      (st.nodes.length ≤ (simplifyMany fuel st sid ts).1.nodes.length ∧
       (∀ i, i < st.nodes.length → i ≠ sid →
         (simplifyMany fuel st sid ts).1.nodes.getD i default = st.nodes.getD i default) ∧
       ((simplifyMany fuel st sid ts).1.nodes.getD sid default).arrows =
         (st.nodes.getD sid default).arrows ∧
       ((simplifyMany fuel st sid ts).1.nodes.getD sid default).size =
         (st.nodes.getD sid default).size)) := by
  intro fuel
  induction fuel with
  | zero =>
    have hnode : ∀ st rid, SimpPreserve st (simplifyNode 0 st rid).1 := by
      intro st rid
      unfold simplifyNode
      exact sp_refl st
    refine ⟨hnode, ?_⟩
    intro ts
    cases ts with
    | nil =>
      intro st sid hsid
      unfold simplifyMany
      exact ⟨le_refl _, fun _ _ _ => rfl, rfl, rfl⟩
    | cons t ts =>
      intro st sid hsid
      unfold simplifyMany
      unfold simplifyNode
      exact ⟨le_refl _, fun _ _ _ => rfl, rfl, rfl⟩
  | succ fuel ih =>
    have hlen1 : ∀ st rid, (insertCopy st rid).1.nodes.length = st.nodes.length + 1 := by
      intro st rid
      simp [insertCopy]
    have hnode : ∀ st rid, SimpPreserve st (simplifyNode (fuel + 1) st rid).1 := by
      intro st rid
      unfold simplifyNode
      cases lookupA st.memo rid with
      | some e => exact sp_refl st
      | none =>
        dsimp only
        cases hts : (st.nodes.getD rid default).targets with
        | nil =>
          simp only [simplifyMany]
          exact sp_after_modify st rid (insertCopy st rid).1 _ _ _ (sp_refl _)
        | cons t ts =>
          cases ts with
          | nil =>
            dsimp only
            have hrec := ih.1 (insertCopy st rid).1 t
            cases hrec2 : simplifyNode fuel (insertCopy st rid).1 t with
            | mk st2 r2 =>
              rw [hrec2] at hrec
              have hrec3 : SimpPreserve (insertCopy st rid).1 st2 := hrec
              cases r2 with
              | none =>
                dsimp only
                refine ⟨?_, ?_⟩
                · show st.nodes.length ≤ st2.nodes.length
                  have := hrec3.1
                  have := hlen1 st rid
                  omega
                · intro i hi
                  show st2.nodes.getD i default = _
                  rw [hrec3.2 i (by rw [hlen1 st rid]; omega)]
                  show (st.nodes ++ [copyNode (st.nodes.getD rid default)]).getD i default = _
                  rw [List.getD_append _ _ _ _ hi]
              | some stgt =>
                dsimp only
                by_cases hcond : (st2.nodes.getD t default).ntype = 0 ∧
                    (st2.nodes.getD t default).sources.length = 1 ∧
                    (st2.nodes.getD stgt default).ready
                · rw [if_pos hcond]
                  exact sp_after_modify st rid st2 _ _ _ hrec3
                · rw [if_neg hcond]
                  exact sp_after_modify st rid st2 _ _ _ hrec3
          | cons t2 ts2 =>
            dsimp only
            have hsid2 : (insertCopy st rid).2 < (insertCopy st rid).1.nodes.length := by
              rw [hlen1 st rid]
              show st.nodes.length < st.nodes.length + 1
              omega
            have hmany := ih.2 (t :: t2 :: ts2) (insertCopy st rid).1 (insertCopy st rid).2 hsid2
            cases hmany2 : simplifyMany fuel (insertCopy st rid).1 (insertCopy st rid).2
                (t :: t2 :: ts2) with
            | mk st2 ok =>
              rw [hmany2] at hmany
              have hm1 : (insertCopy st rid).1.nodes.length ≤ st2.nodes.length := hmany.1
              have hm2 : ∀ i, i < (insertCopy st rid).1.nodes.length →
                  i ≠ (insertCopy st rid).2 →
                  st2.nodes.getD i default = (insertCopy st rid).1.nodes.getD i default :=
                hmany.2.1
              cases ok with
              | false =>
                dsimp only
                refine ⟨?_, ?_⟩
                · show st.nodes.length ≤ st2.nodes.length
                  have := hlen1 st rid
                  omega
                · intro i hi
                  show st2.nodes.getD i default = _
                  rw [hm2 i (by rw [hlen1 st rid]; omega)
                      (by show i ≠ st.nodes.length; omega)]
                  show (st.nodes ++ [copyNode (st.nodes.getD rid default)]).getD i default = _
                  rw [List.getD_append _ _ _ _ hi]
              | true =>
                dsimp only
                refine ⟨?_, ?_⟩
                · show st.nodes.length ≤ (modifyIdx st2.nodes (insertCopy st rid).2 _).length
                  rw [modifyIdx_length]
                  have := hlen1 st rid
                  omega
                · intro i hi
                  show (modifyIdx st2.nodes (insertCopy st rid).2 _).getD i default = _
                  rw [getD_modifyIdx_ne _ i _ _ _ (by show i ≠ st.nodes.length; omega)]
                  rw [hm2 i (by rw [hlen1 st rid]; omega)
                      (by show i ≠ st.nodes.length; omega)]
                  show (st.nodes ++ [copyNode (st.nodes.getD rid default)]).getD i default = _
                  rw [List.getD_append _ _ _ _ hi]
    refine ⟨hnode, ?_⟩
    intro ts
    induction ts with
    | nil =>
      intro st sid hsid
      unfold simplifyMany
      exact ⟨le_refl _, fun _ _ _ => rfl, rfl, rfl⟩
    | cons t ts ihts =>
      intro st sid hsid
      unfold simplifyMany
      have hA := hnode st t
      cases hrec : simplifyNode (fuel + 1) st t with
      | mk stA rA =>
        rw [hrec] at hA
        have hA2 : SimpPreserve st stA := hA
        cases rA with
        | none =>
          dsimp only
          exact ⟨hA2.1, fun i hi _ => hA2.2 i hi, by rw [hA2.2 sid hsid],
            by rw [hA2.2 sid hsid]⟩
        | some stgt =>
          dsimp only
          have hsidA : sid < stA.nodes.length := lt_of_lt_of_le hsid hA2.1
          have hsidA2 : sid < (modifyIdx stA.nodes sid
              (fun nd => { nd with targets := nd.targets ++ [stgt] })).length := by
            rw [modifyIdx_length]
            exact hsidA
          have hrest := ihts ⟨modifyIdx stA.nodes sid
              (fun nd => { nd with targets := nd.targets ++ [stgt] }), stA.memo, stA.live⟩
            sid hsidA2
          refine ⟨?_, ?_, ?_, ?_⟩
          · refine le_trans (le_trans hA2.1 (le_of_eq ?_)) hrest.1
            show stA.nodes.length = (modifyIdx stA.nodes sid _).length
            rw [modifyIdx_length]
          · intro i hi hne
            rw [hrest.2.1 i (lt_of_lt_of_le hi (le_trans hA2.1
              (le_of_eq (modifyIdx_length _ _ _).symm))) hne]
            show (modifyIdx stA.nodes sid _).getD i default = _
            rw [getD_modifyIdx_ne _ i sid _ _ hne, hA2.2 i hi]
          · rw [hrest.2.2.1]
            show ((modifyIdx stA.nodes sid _).getD sid default).arrows = _
            rw [getD_modifyIdx_self _ sid _ _ hsidA]
            show (stA.nodes.getD sid default).arrows = _
            rw [hA2.2 sid hsid]
          · rw [hrest.2.2.2]
            show ((modifyIdx stA.nodes sid _).getD sid default).size = _
            rw [getD_modifyIdx_self _ sid _ _ hsidA]
            show (stA.nodes.getD sid default).size = _
            rw [hA2.2 sid hsid]

/-- A left fold over a list drops the elements its step ignores. -/
theorem foldl_skip {α β : Type} (f : β → α → β) (p : α → Bool)
    (hf : ∀ b a, p a = false → f b a = b) :
    ∀ (l : List α) (b : β), l.foldl f b = (l.filter p).foldl f b := by
  intro l
  induction l with
  | nil => intro b; rfl
  | cons a l ih =>
    intro b
    by_cases h : p a = true
    · rw [List.filter_cons_of_pos h, List.foldl_cons, List.foldl_cons]
      exact ih _
    · rw [Bool.not_eq_true] at h
      rw [List.filter_cons_of_neg (by rw [h]; exact Bool.false_ne_true), List.foldl_cons,
        hf b a h]
      exact ih _

/-- `createNode` leaves the state unchanged on an empty cell. -/
theorem createNode_skipped (w : World) (fuel : Nat) (st : BuildState) (k : CellPos)
    (h : liveCell w k = false) : (createNode w fuel st k.1 k.2.1 k.2.2).1 = st := by
  cases fuel with
  | zero => unfold createNode; rfl
  | succ fuel =>
    unfold createNode
    unfold liveCell at h
    cases hc : w.chunkAt k.1 with
    | none => rfl
    | some ch =>
      rw [hc] at h
      dsimp only at h ⊢
      have h0 : (ch.getArrow k.2.1 k.2.2).arrowType = 0 := by
        simpa using h
      rw [if_pos h0]

/-- `createNodes` only does work on the non-empty cells. -/
theorem buildAll_keys (w : World) (fuel : Nat) :
    buildAll w fuel = ((cellKeys w).filter (liveCell w)).foldl
      (fun st k => (createNode w fuel st k.1 k.2.1 k.2.2).1) ⟨[], []⟩ := by
  unfold buildAll
  rw [← foldl_skip _ _ (fun b a h => createNode_skipped w fuel b a h) (cellKeys w)]
  unfold cellKeys
  rw [List.foldl_map]

set_option maxRecDepth 100000 in
/-- Running `createNodes` on the branch world yields the five-node arena:
four arms around the shape-5 center, the center holding all four target
edges. -/
theorem branchBuild_eq : buildAll branchWorld 8 = branchBuild := by
  rw [buildAll_keys]
  rw [show (cellKeys branchWorld).filter (liveCell branchWorld) =
    [((0,0),(8,7)), ((0,0),(7,8)), ((0,0),(8,8)), ((0,0),(9,8)), ((0,0),(8,9))] from by decide]
  simp [createNode, buildTargets, addTargetNode, lookupA, modifyIdx, rebaseLocal,
    addTargetTransform, transformOffset, createOffsets, World.chunkAt, Chunk.getArrow,
    branchWorld, branchChunk, branchArrow, branchBuild, List.find?,
    show ((0 : Fin 4) : Nat) = 0 from rfl, show ((1 : Fin 4) : Nat) = 1 from rfl,
    show ((2 : Fin 4) : Nat) = 2 from rfl, show ((3 : Fin 4) : Nat) = 3 from rfl,
    show (default : Arrow).arrowType = 0 from rfl]

/-- `simplifyNodes` only does work on the memoized (non-empty) cells. -/
theorem simplifyAll_keys (w : World) (bst : BuildState) (fuel : Nat) :
    simplifyAll w bst fuel =
      ((cellKeys w).filter (fun k => (lookupA bst.memo k).isSome)).foldl
        (fun st k => match lookupA bst.memo k with
          | none => st
          | some rid => (simplifyNode fuel st rid).1) ⟨bst.nodes, [], []⟩ := by
  have hf : ∀ (b : SimpState) (k : CellPos), (lookupA bst.memo k).isSome = false →
      (match lookupA bst.memo k with
        | none => b
        | some rid => (simplifyNode fuel b rid).1) = b := by
    intro b k h
    cases hm : lookupA bst.memo k with
    | none => rfl
    | some rid => rw [hm] at h; simp at h
  unfold simplifyAll
  rw [← foldl_skip _ _ hf (cellKeys w)]
  unfold cellKeys
  rw [List.foldl_map]

set_option maxRecDepth 100000 in
/-- Running `simplifyNodes` on the branch build yields five live simplified
nodes; the center copy keeps its single cell and its four targets. -/
theorem branchSimp_eq : simplifyAll branchWorld branchBuild 8 = branchSimp := by
  rw [simplifyAll_keys]
  rw [show (cellKeys branchWorld).filter (fun k => (lookupA branchBuild.memo k).isSome) =
    [((0,0),(8,7)), ((0,0),(7,8)), ((0,0),(8,8)), ((0,0),(9,8)), ((0,0),(8,9))] from by decide]
  simp [simplifyNode, simplifyMany, insertCopy, copyNode, lookupA, modifyIdx, branchBuild,
    branchSimp, List.find?]

/-- Reading a list one past its end after appending a singleton. -/
theorem getD_concat {α : Type} (l : List α) (a d : α) : (l ++ [a]).getD l.length d = a := by
  induction l with
  | nil => rfl
  | cons x l ih => simpa using ih

/-- C4: `simplifyNode` fuses a single-target node with its target exactly
when the raw target has logic function 0 and one source and the target's
simplified form is already ready; on fusion the target's cells are appended
with offsets shifted by the node's size, the size grows by the target's
size, the target's targets are adopted and the simplified target leaves the
live set, while otherwise the node keeps its own cells and size and merely
links the simplified target.  A node whose target list is not a singleton is
never merged into a neighbor on its output side: its simplified copy keeps
its own cells and size.  Consequently the shape-5 branch scenario compiles
the center cell into one node with four targets that keeps its single cell,
and every simplified node stays live. -/
theorem c4_fusion_condition :
    (∀ fuel st rid t st2 stgt,
      lookupA st.memo rid = none →
      (st.nodes.getD rid default).targets = [t] →
      simplifyNode fuel (insertCopy st rid).1 t = (st2, some stgt) →
      ((((st2.nodes.getD t default).ntype = 0 ∧ (st2.nodes.getD t default).sources.length = 1 ∧
          (st2.nodes.getD stgt default).ready) →
        (simplifyNode (fuel + 1) st rid).2 = some st.nodes.length ∧
        ((simplifyNode (fuel + 1) st rid).1.nodes.getD st.nodes.length default).arrows =
          (st.nodes.getD rid default).arrows ++
            (st2.nodes.getD stgt default).arrows.map
              (fun pr => (pr.1, pr.2 + (st.nodes.getD rid default).size)) ∧
        ((simplifyNode (fuel + 1) st rid).1.nodes.getD st.nodes.length default).size =
          (st.nodes.getD rid default).size + (st2.nodes.getD stgt default).size ∧
        ((simplifyNode (fuel + 1) st rid).1.nodes.getD st.nodes.length default).targets =
          (st2.nodes.getD stgt default).targets ∧
        (simplifyNode (fuel + 1) st rid).1.live = st2.live.erase stgt) ∧
       (¬((st2.nodes.getD t default).ntype = 0 ∧ (st2.nodes.getD t default).sources.length = 1 ∧
          (st2.nodes.getD stgt default).ready) →
        (simplifyNode (fuel + 1) st rid).2 = some st.nodes.length ∧
        ((simplifyNode (fuel + 1) st rid).1.nodes.getD st.nodes.length default).arrows =
          (st.nodes.getD rid default).arrows ∧
        ((simplifyNode (fuel + 1) st rid).1.nodes.getD st.nodes.length default).size =
          (st.nodes.getD rid default).size ∧
        ((simplifyNode (fuel + 1) st rid).1.nodes.getD st.nodes.length default).targets =
          [stgt] ∧
        (simplifyNode (fuel + 1) st rid).1.live = st2.live))) ∧
    (∀ fuel st rid st2 sid2,
      lookupA st.memo rid = none →
      (st.nodes.getD rid default).targets.length ≠ 1 →
      simplifyNode (fuel + 1) st rid = (st2, some sid2) →
      sid2 = st.nodes.length ∧
      (st2.nodes.getD sid2 default).arrows = (st.nodes.getD rid default).arrows ∧
      (st2.nodes.getD sid2 default).size = (st.nodes.getD rid default).size) ∧
    (lookupA (buildAll branchWorld 8).memo ((0, 0), (8, 8)) = some 2 ∧
     lookupA (simplifyAll branchWorld (buildAll branchWorld 8) 8).memo 2 = some 7 ∧
     ((simplifyAll branchWorld (buildAll branchWorld 8) 8).nodes.getD 7 default).targets.length
       = 4 ∧
     ((simplifyAll branchWorld (buildAll branchWorld 8) 8).nodes.getD 7 default).arrows.length
       = 1 ∧
     (simplifyAll branchWorld (buildAll branchWorld 8) 8).live = [5, 6, 7, 8, 9]) := by
  refine ⟨?_, ?_, ?_⟩
  · intro fuel st rid t st2 stgt hmemo htgt hrec
    have hsp : SimpPreserve (insertCopy st rid).1 st2 := by
      have h := (simp_preserve fuel).1 (insertCopy st rid).1 t
      rw [hrec] at h
      exact h
    have hlen : (insertCopy st rid).1.nodes.length = st.nodes.length + 1 := by
      simp [insertCopy]
    have hslt : st.nodes.length < st2.nodes.length :=
      lt_of_lt_of_le (by omega) (hlen ▸ hsp.1)
    have hcopy : st2.nodes.getD st.nodes.length default =
        copyNode (st.nodes.getD rid default) := by
      rw [hsp.2 st.nodes.length (by omega)]
      exact getD_concat _ _ _
    constructor
    · intro hcond
      have hmain : simplifyNode (fuel + 1) st rid =
          (⟨modifyIdx st2.nodes st.nodes.length (fun nd =>
              { nd with
                size := (st.nodes.getD rid default).size + (st2.nodes.getD stgt default).size,
                arrows := nd.arrows ++ (st2.nodes.getD stgt default).arrows.map
                  (fun pr => (pr.1, pr.2 + (st.nodes.getD rid default).size)),
                targets := nd.targets ++ (st2.nodes.getD stgt default).targets,
                ready := true }),
            st2.memo, st2.live.erase stgt⟩, some st.nodes.length) := by
        unfold simplifyNode
        rw [hmemo]
        dsimp only
        rw [htgt]
        dsimp only
        rw [hrec]
        dsimp only
        rw [if_pos hcond]
        rfl
      rw [hmain]
      refine ⟨rfl, ?_, ?_, ?_, rfl⟩
      · dsimp only
        rw [getD_modifyIdx_self _ _ _ _ hslt, hcopy]
        simp [copyNode]
      · dsimp only
        rw [getD_modifyIdx_self _ _ _ _ hslt, hcopy]
      · dsimp only
        rw [getD_modifyIdx_self _ _ _ _ hslt, hcopy]
        simp [copyNode]
    · intro hcond
      have hmain : simplifyNode (fuel + 1) st rid =
          (⟨modifyIdx st2.nodes st.nodes.length (fun nd =>
              { nd with targets := nd.targets ++ [stgt], ready := true }),
            st2.memo, st2.live⟩, some st.nodes.length) := by
        unfold simplifyNode
        rw [hmemo]
        dsimp only
        rw [htgt]
        dsimp only
        rw [hrec]
        dsimp only
        rw [if_neg hcond]
        rfl
      rw [hmain]
      refine ⟨rfl, ?_, ?_, ?_, rfl⟩
      · dsimp only
        rw [getD_modifyIdx_self _ _ _ _ hslt, hcopy]
        simp [copyNode]
      · dsimp only
        rw [getD_modifyIdx_self _ _ _ _ hslt, hcopy]
        simp [copyNode]
      · dsimp only
        rw [getD_modifyIdx_self _ _ _ _ hslt, hcopy]
        simp [copyNode]
  · intro fuel st rid st2 sid2 hmemo hlone hres
    have hlen : (insertCopy st rid).1.nodes.length = st.nodes.length + 1 := by
      simp [insertCopy]
    have hcopy1 : (insertCopy st rid).1.nodes.getD st.nodes.length default =
        copyNode (st.nodes.getD rid default) :=
      getD_concat _ _ _
    unfold simplifyNode at hres
    rw [hmemo] at hres
    dsimp only at hres
    cases hts : (st.nodes.getD rid default).targets with
    | nil =>
      rw [hts] at hres
      dsimp only at hres
      rw [show simplifyMany fuel (insertCopy st rid).1 (insertCopy st rid).2 [] =
          ((insertCopy st rid).1, true) from by simp [simplifyMany]] at hres
      dsimp only at hres
      rw [Prod.mk.injEq] at hres
      obtain ⟨hst2, hsid2⟩ := hres
      rw [Option.some.injEq] at hsid2
      refine ⟨hsid2.symm, ?_, ?_⟩
      · rw [← hst2, hsid2.symm]
        show ((modifyIdx (insertCopy st rid).1.nodes st.nodes.length _).getD
          st.nodes.length default).arrows = _
        rw [getD_modifyIdx_self _ _ _ _ (by omega), hcopy1]
        simp [copyNode]
      · rw [← hst2, hsid2.symm]
        show ((modifyIdx (insertCopy st rid).1.nodes st.nodes.length _).getD
          st.nodes.length default).size = _
        rw [getD_modifyIdx_self _ _ _ _ (by omega), hcopy1]
        simp [copyNode]
    | cons t ts =>
      cases ts with
      | nil => exact absurd (by rw [hts]; rfl) hlone
      | cons t2 ts2 =>
        rw [hts] at hres
        dsimp only at hres
        have hsidlt : (insertCopy st rid).2 < (insertCopy st rid).1.nodes.length := by
          rw [hlen]
          show st.nodes.length < st.nodes.length + 1
          omega
        have h2 := (simp_preserve fuel).2 (t :: t2 :: ts2) (insertCopy st rid).1
          (insertCopy st rid).2 hsidlt
        cases hm : simplifyMany fuel (insertCopy st rid).1 (insertCopy st rid).2
            (t :: t2 :: ts2) with
        | mk stM ok =>
          rw [hm] at hres h2
          cases ok with
          | false =>
            dsimp only at hres
            rw [Prod.mk.injEq] at hres
            exact absurd hres.2 (by simp)
          | true =>
            dsimp only at hres
            rw [Prod.mk.injEq] at hres
            obtain ⟨hst2, hsid2⟩ := hres
            rw [Option.some.injEq] at hsid2
            have harr : (stM.nodes.getD (insertCopy st rid).2 default).arrows =
                (st.nodes.getD rid default).arrows := by
              have := h2.2.2.1
              rw [this]
              show ((insertCopy st rid).1.nodes.getD st.nodes.length default).arrows = _
              rw [hcopy1]
              rfl
            have hsz : (stM.nodes.getD (insertCopy st rid).2 default).size =
                (st.nodes.getD rid default).size := by
              have := h2.2.2.2
              rw [this]
              show ((insertCopy st rid).1.nodes.getD st.nodes.length default).size = _
              rw [hcopy1]
              rfl
            refine ⟨hsid2.symm, ?_, ?_⟩
            · rw [← hst2, hsid2.symm]
              show ((modifyIdx stM.nodes (insertCopy st rid).2 _).getD
                (insertCopy st rid).2 default).arrows = _
              rw [getD_modifyIdx_self _ _ _ _ (lt_of_lt_of_le hsidlt h2.1)]
              exact harr
            · rw [← hst2, hsid2.symm]
              show ((modifyIdx stM.nodes (insertCopy st rid).2 _).getD
                (insertCopy st rid).2 default).size = _
              rw [getD_modifyIdx_self _ _ _ _ (lt_of_lt_of_le hsidlt h2.1)]
              exact hsz
  · rw [branchBuild_eq, branchSimp_eq]
    refine ⟨by decide, by decide, by decide, by decide, rfl⟩

/-- Witness for C4 on the two-node fusion demo: the hypotheses hold
concretely and the fusion produces the merged node. -/
theorem c4_witness :
    (lookupA fuseDemoState.memo 0 = none ∧
     (fuseDemoState.nodes.getD 0 default).targets = [1] ∧
     simplifyNode 2 (insertCopy fuseDemoState 0).1 1 = (fuseMidState, some 3) ∧
     ((fuseMidState.nodes.getD 1 default).ntype = 0 ∧
      (fuseMidState.nodes.getD 1 default).sources.length = 1 ∧
      (fuseMidState.nodes.getD 3 default).ready)) ∧
    ((simplifyNode 3 fuseDemoState 0).2 = some fuseDemoState.nodes.length ∧
     ((simplifyNode 3 fuseDemoState 0).1.nodes.getD fuseDemoState.nodes.length default).arrows =
       (fuseDemoState.nodes.getD 0 default).arrows ++
         (fuseMidState.nodes.getD 3 default).arrows.map
           (fun pr => (pr.1, pr.2 + (fuseDemoState.nodes.getD 0 default).size)) ∧
     ((simplifyNode 3 fuseDemoState 0).1.nodes.getD fuseDemoState.nodes.length default).size =
       (fuseDemoState.nodes.getD 0 default).size + (fuseMidState.nodes.getD 3 default).size ∧
     ((simplifyNode 3 fuseDemoState 0).1.nodes.getD fuseDemoState.nodes.length default).targets =
       (fuseMidState.nodes.getD 3 default).targets ∧
     (simplifyNode 3 fuseDemoState 0).1.live = fuseMidState.live.erase 3) :=
  ⟨⟨by decide, by decide,
    by simp [simplifyNode, simplifyMany, insertCopy, copyNode, lookupA, modifyIdx,
      fuseDemoState, fuseMidState, List.find?], by decide⟩,
   (c4_fusion_condition.1 2 fuseDemoState 0 1 fuseMidState 3 (by decide) (by decide)
     (by simp [simplifyNode, simplifyMany, insertCopy, copyNode, lookupA, modifyIdx,
       fuseDemoState, fuseMidState, List.find?])).1 (by decide)⟩
